import Mathlib

/-!
Verification development for the file synchronizer repository.

The engine in sync_data.py, the stores in local_storage.py and
yandex_disk.py, the metadata cache in metadata_manager.py and the time
utilities in utils.py are embedded shallowly: Python dicts become
ordered association lists, timestamps become integers (seconds, so the
ceil calls on already-integral values are the identity), the wall clock
read by time() is modelled as a fixed per-pass value held in the state,
and every externally visible effect (transfer, delete, cache write) is
recorded in an event trace.  Python exceptions become an explicit error
component threaded through each step, mirroring the try and except
structure of the source line by line.
-/

/-- A Python dict from file name to modification time, as an ordered
association list (insertion order preserved, keys unique in practice). -/
abbrev Info := List (String × Int)

/-- Dict lookup, mirroring Python dict indexing and the in operator. -/
def dictGet : Info → String → Option Int
  | [], _ => none
  | (k, v) :: rest, f => if k = f then some v else dictGet rest f

/-- Dict assignment d[f] = t: replaces in place when the key exists,
appends otherwise, as a Python dict does. -/
def dictSet : Info → String → Int → Info
  | [], f, t => [(f, t)]
  | (k, v) :: rest, f, t =>
      if k = f then (f, t) :: rest else (k, v) :: dictSet rest f t

/-- Dict removal d.pop(f). -/
def dictErase (d : Info) (f : String) : Info :=
  d.filter (fun p => p.1 != f)

/-- Python membership test f in d. -/
def dictContains (d : Info) (f : String) : Bool :=
  (dictGet d f).isSome

/-- Python list(d): the key list of a dict. -/
def dictKeys (d : Info) : List String :=
  d.map Prod.fst

/-- Python structural dict equality d1 == d2 (order insensitive). -/
def dictEq (a b : Info) : Bool :=
  a.all (fun p => dictGet b p.1 == some p.2)
    && b.all (fun p => dictGet a p.1 == some p.2)

/-- The Python exception classes the program distinguishes.
FileNotFoundError is a subclass of OSError in Python, which matters for
the top level handler ordering in synchronize_data. -/
inductive PyErr
  | connectionError
  | unauthorized
  | osError
  | fileNotFound
  | diskNotFound
  | typeError
  | genericError
deriving DecidableEq

/-- Externally visible effects of one reconciliation pass, in order. -/
inductive Event
  | upload (f : String)          -- ManagerYandexDiskStorage.load succeeded
  | overwriteRemote (f : String) -- ManagerYandexDiskStorage.reload succeeded
  | download (f : String)        -- ManagerYandexDiskStorage.download succeeded
  | overwriteLocal (f : String)  -- ManagerYandexDiskStorage.update succeeded
  | deleteCloudFile (f : String) -- remote object actually removed
  | deleteLocalFile (f : String) -- local file actually removed
  | cacheWrite (f : String) (t : Int) -- MetadataCache.update_file_cache
  | cacheErase (f : String)      -- MetadataCache.delete_file_cache, key present
  | cacheClear                   -- MetadataCache.delete_data_cache
  | restart                      -- recursive synchronize_data(is_first_launch=True)
deriving DecidableEq

/-- Metadata of one entry of the local directory.  readable is false when
os.path.getmtime would raise an access error for it; isFile distinguishes
regular files from directories in the os.path.isfile check. -/
structure FileMeta where
  mtime : Int
  readable : Bool
  isFile : Bool
deriving DecidableEq

/-- The local directory: whether it exists, and its entries. -/
structure LocalStore where
  dirExists : Bool
  files : List (String × FileMeta)
deriving DecidableEq

/-- Metadata of one item of the remote backup folder; type file or dir. -/
structure CloudMeta where
  mtime : Int
  isFile : Bool
deriving DecidableEq

/-- The remote backup folder: whether it exists, and its items. -/
structure CloudStore where
  folderExists : Bool
  items : List (String × CloudMeta)
deriving DecidableEq

/-- The full mutable state of StorageSynchronizer together with its two
store collaborators.  cacheAlias records that cache and localInfo are the
same Python dict object, which happens after the seeding assignment
cache.metadata = local_info in synchronize_data; now models the value
returned by time() during the pass. -/
structure SyncState where
  localStore : LocalStore
  cloudStore : CloudStore
  localInfo : Info
  cloudInfo : Info
  cache : Info
  cacheAlias : Bool
  syncTime : Int
  now : Int
deriving DecidableEq

/-- Which of the two snapshot dicts a parameter of _delete_in_storage or
_update_data refers to.  The Python code passes the dict objects
themselves; identity of objects is modelled by this selector. -/
inductive Side
  | localSide
  | cloudSide
deriving DecidableEq

/-- The dict a side selector denotes. -/
def infoOf (s : SyncState) : Side → Info
  | .localSide => s.localInfo
  | .cloudSide => s.cloudInfo

/-- utils.get_time_correlation: ceil(current_time) + sync_time.  On the
integer time scale of this model the ceil is the identity. -/
def get_time_correlation (currentTime syncTime : Int) : Int :=
  currentTime + syncTime

/-- Outcome of the single NTP request made at process start. -/
inductive NtpOutcome
  | ok (delta : Int)   -- ceil(response.tx_time - time())
  | failed             -- any exception during the request
deriving DecidableEq

/-- utils.get_ntp_time: the clock correlation delta, or 0 when the NTP
request fails for any reason (the handler catches Exception). -/
def get_ntp_time : NtpOutcome → Int
  | .ok delta => delta
  | .failed => 0

/-- A parsed JSON document, by top level shape; object payloads keep the
name to time mapping the cache stores, other payloads are irrelevant to
the program and kept schematic. -/
inductive JsonDoc
  | jObj (m : Info)
  | jArr (xs : List Int)
  | jStr (s : String)
  | jNum (n : Int)
  | jBool (b : Bool)
  | jNull
deriving DecidableEq

/-- What happened when MetadataCache._load_cache opened and parsed the
backing file. -/
inductive CacheLoadOutcome
  | fileMissing                -- os.path.exists is false
  | ioError                    -- IOError while reading
  | decodeError                -- json.JSONDecodeError
  | parsed (d : JsonDoc)       -- json.load succeeded with this document
deriving DecidableEq

/-- MetadataCache._load_cache: missing file and the two caught exception
classes give an empty dict; any successfully parsed JSON document is
returned unchanged, whatever its shape. -/
def load_cache : CacheLoadOutcome → JsonDoc
  | .fileMissing => .jObj []
  | .ioError => .jObj []
  | .decodeError => .jObj []
  | .parsed d => d

/-- MetadataCache.__init__: the metadata field is whatever _load_cache
produced. -/
def metadata_init (o : CacheLoadOutcome) : JsonDoc :=
  load_cache o

/-- The file_name.startswith tilde test both listings apply, written on
the character list of the name so that it evaluates by kernel reduction. -/
def startsWithTilde (n : String) : Bool :=
  match n.data with
  | [] => false
  | c :: _ => c == '~'

/-- The loop body of ManagerLocalStorage.get_info over os.listdir.
Directories and names starting with a tilde are skipped; for each
remaining file _get_file_time_modified is consulted.  That helper
swallows its own FileNotFoundError and OSError and returns None, so an
unreadable file makes get_time_correlation receive None and raise
TypeError, aborting the whole listing. -/
def local_listing_go (syncTime : Int) : List (String × FileMeta) → Info →
    Except PyErr Info
  | [], acc => .ok acc
  | (n, m) :: rest, acc =>
      if m.isFile && !startsWithTilde n then
        if m.readable then
          local_listing_go syncTime rest
            (dictSet acc n (get_time_correlation m.mtime syncTime))
        else
          .error .typeError
      else
        local_listing_go syncTime rest acc

/-- The pure core of ManagerLocalStorage.get_info for an existing
directory. -/
def local_listing (files : List (String × FileMeta)) (syncTime : Int) :
    Except PyErr Info :=
  local_listing_go syncTime files []

/-- ManagerLocalStorage.get_info.  A missing directory makes os.listdir
raise OSError; the handler recreates the directory with os.makedirs and
re-raises OSError. -/
def local_get_info (s : SyncState) : SyncState × Except PyErr Info :=
  if s.localStore.dirExists then
    (s, local_listing s.localStore.files s.syncTime)
  else
    ({ s with localStore := { dirExists := true, files := [] } },
     .error .osError)

/-- Lookup of a name among the local directory entries. -/
def localFileLookup : List (String × FileMeta) → String → Option FileMeta
  | [], _ => none
  | (n, m) :: rest, f => if n = f then some m else localFileLookup rest f

/-- Whether the local directory holds an entry of this name. -/
def localHasFile (ls : LocalStore) (f : String) : Bool :=
  (localFileLookup ls.files f).isSome

/-- ManagerLocalStorage.delete: os.remove raises FileNotFoundError when
the file is absent. -/
def local_delete (s : SyncState) (f : String) :
    SyncState × List Event × Option PyErr :=
  if localHasFile s.localStore f then
    ({ s with localStore :=
        { s.localStore with
            files := s.localStore.files.filter (fun p => p.1 != f) } },
     [.deleteLocalFile f], none)
  else
    (s, [], some .fileNotFound)

/-- The name to time dict ManagerYandexDiskStorage.get_info builds from
the folder items: non-files and names starting with a tilde are skipped,
and the value is the raw remote timestamp converted by to_unix_timestamp,
with no clock correlation applied. -/
def visible_cloud_go : List (String × CloudMeta) → Info → Info
  | [], acc => acc
  | (n, m) :: rest, acc =>
      if m.isFile && !startsWithTilde n then
        visible_cloud_go rest (dictSet acc n m.mtime)
      else
        visible_cloud_go rest acc

/-- The listing of the remote folder as get_info reports it. -/
def visible_cloud (cs : CloudStore) : Info :=
  visible_cloud_go cs.items []

/-- ManagerYandexDiskStorage.get_info.  When the folder is missing the
DiskNotFoundError handler recreates it via _create_backup_folder and
re-raises DiskNotFoundError. -/
def cloud_get_info (s : SyncState) : SyncState × Except PyErr Info :=
  if s.cloudStore.folderExists then
    (s, .ok (visible_cloud s.cloudStore))
  else
    ({ s with cloudStore := { s.cloudStore with folderExists := true } },
     .error .diskNotFound)

/-- Write or overwrite a remote item; the server stamps it with its own
clock, which is the local clock plus the NTP offset. -/
def cloudPut (s : SyncState) (f : String) : SyncState :=
  { s with cloudStore :=
      { s.cloudStore with
          items := (s.cloudStore.items.filter (fun p => p.1 != f))
            ++ [(f, { mtime := s.now + s.syncTime, isFile := true })] } }

/-- ManagerYandexDiskStorage.load: raises OSError when the local folder
path does not exist, FileNotFoundError when the local file to upload is
absent, and a generic Exception when the transfer URL negotiation fails
(for instance because the remote folder is missing). -/
def cloud_load (s : SyncState) (f : String) :
    SyncState × List Event × Option PyErr :=
  if !s.localStore.dirExists then
    (s, [], some .osError)
  else if !s.cloudStore.folderExists then
    (s, [], some .genericError)
  else if localHasFile s.localStore f then
    (cloudPut s f, [.upload f], none)
  else
    (s, [], some .fileNotFound)

/-- ManagerYandexDiskStorage.reload: load with is_load false. -/
def cloud_reload (s : SyncState) (f : String) :
    SyncState × List Event × Option PyErr :=
  if !s.localStore.dirExists then
    (s, [], some .osError)
  else if !s.cloudStore.folderExists then
    (s, [], some .genericError)
  else if localHasFile s.localStore f then
    (cloudPut s f, [.overwriteRemote f], none)
  else
    (s, [], some .fileNotFound)

/-- Write a downloaded remote object into the local directory; its local
modification time is the wall clock at the moment of writing. -/
def localPut (s : SyncState) (f : String) : SyncState :=
  { s with localStore :=
      { s.localStore with
          files := (s.localStore.files.filter (fun p => p.1 != f))
            ++ [(f, { mtime := s.now, readable := true, isFile := true })] } }

/-- ManagerYandexDiskStorage.download: raises OSError when the local
folder is missing and a generic Exception when the download URL cannot be
obtained (missing remote folder or missing remote object). -/
def cloud_download (s : SyncState) (f : String) :
    SyncState × List Event × Option PyErr :=
  if !s.localStore.dirExists then
    (s, [], some .osError)
  else if !s.cloudStore.folderExists
      || !(dictContains (visible_cloud s.cloudStore) f) then
    (s, [], some .genericError)
  else
    (localPut s f, [.download f], none)

/-- ManagerYandexDiskStorage.update: download with is_download false. -/
def cloud_update (s : SyncState) (f : String) :
    SyncState × List Event × Option PyErr :=
  if !s.localStore.dirExists then
    (s, [], some .osError)
  else if !s.cloudStore.folderExists
      || !(dictContains (visible_cloud s.cloudStore) f) then
    (s, [], some .genericError)
  else
    (localPut s f, [.overwriteLocal f], none)

/-- ManagerYandexDiskStorage.delete.  It first calls get_info; a missing
folder therefore surfaces as DiskNotFoundError, which the generic handler
turns into a plain Exception (never FileNotFoundError), after get_info
has already recreated the folder.  When the name is not listed the
deletion is a logged no-op. -/
def cloud_delete (s : SyncState) (f : String) :
    SyncState × List Event × Option PyErr :=
  if !s.cloudStore.folderExists then
    ({ s with cloudStore := { s.cloudStore with folderExists := true } },
     [], some .genericError)
  else if dictContains (visible_cloud s.cloudStore) f then
    ({ s with cloudStore :=
        { s.cloudStore with
            items := s.cloudStore.items.filter (fun p => p.1 != f) } },
     [.deleteCloudFile f], none)
  else
    (s, [], none)

/-- The callable argument of _transfer_to_storage and _reload_to_storage:
which manager method is being passed. -/
inductive TransferFn
  | cloudLoad
  | cloudReload
  | cloudDownload
  | cloudUpdate
deriving DecidableEq

/-- Dispatch of the callable. -/
def applyTransfer : TransferFn → SyncState → String →
    SyncState × List Event × Option PyErr
  | .cloudLoad, s, f => cloud_load s f
  | .cloudReload, s, f => cloud_reload s f
  | .cloudDownload, s, f => cloud_download s f
  | .cloudUpdate, s, f => cloud_update s f

/-- MetadataCache.update_file_cache, with the aliasing semantics of the
seeding assignment: when cache and localInfo are the same dict object a
write through the cache handle is visible in localInfo too. -/
def cacheSet (s : SyncState) (f : String) (t : Int) : SyncState :=
  let s1 := { s with cache := dictSet s.cache f t }
  if s1.cacheAlias then { s1 with localInfo := dictSet s1.localInfo f t }
  else s1

/-- MetadataCache.delete_file_cache: removes and persists when the key is
present (emitting the cacheErase event), otherwise only logs. -/
def cacheEraseOp (s : SyncState) (f : String) : SyncState × List Event :=
  if dictContains s.cache f then
    let s1 := { s with cache := dictErase s.cache f }
    let s2 := if s1.cacheAlias
      then { s1 with localInfo := dictErase s1.localInfo f } else s1
    (s2, [.cacheErase f])
  else
    (s, [])

/-- MetadataCache.delete_data_cache: rebinding the metadata field to a
fresh empty dict breaks any aliasing with localInfo. -/
def cacheClearOp (s : SyncState) : SyncState × List Event :=
  ({ s with cache := [], cacheAlias := false }, [.cacheClear])

/-- Write to one of the two snapshot dicts, honouring the aliasing of
cache and localInfo. -/
def setInfo (s : SyncState) (side : Side) (f : String) (t : Int) :
    SyncState :=
  match side with
  | .localSide =>
      let s1 := { s with localInfo := dictSet s.localInfo f t }
      if s1.cacheAlias then { s1 with cache := dictSet s1.cache f t }
      else s1
  | .cloudSide => { s with cloudInfo := dictSet s.cloudInfo f t }

/-- Remove a key from one of the two snapshot dicts (the storage_info.pop
of _delete_data), honouring aliasing. -/
def eraseInfo (s : SyncState) (side : Side) (f : String) : SyncState :=
  match side with
  | .localSide =>
      let s1 := { s with localInfo := dictErase s.localInfo f }
      if s1.cacheAlias then { s1 with cache := dictErase s1.cache f }
      else s1
  | .cloudSide => { s with cloudInfo := dictErase s.cloudInfo f }

/-- StorageSynchronizer._update_data: stamps the file with
get_time_correlation(time(), sync_time) in the given snapshot dict and in
the cache.  Nothing in it can fail in this model, so the surrounding
try block never fires. -/
def update_data (s : SyncState) (f : String) (side : Side) :
    SyncState × List Event :=
  let t := get_time_correlation s.now s.syncTime
  let s1 := setInfo s side f t
  let s2 := cacheSet s1 f t
  (s2, [.cacheWrite f t])

/-- StorageSynchronizer._delete_data: pop from the given snapshot dict if
present, then delete_file_cache. -/
def delete_data (s : SyncState) (f : String) (side : Side) :
    SyncState × List Event :=
  let s1 := if dictContains (infoOf s side) f then eraseInfo s side f else s
  cacheEraseOp s1 f

/-- StorageSynchronizer._transfer_to_storage: transfer only when the file
is not in the cache, then _update_data; every exception is caught and
logged here, so the step never propagates an error. -/
def transfer_to_storage (s : SyncState) (f : String) (side : Side)
    (fn : TransferFn) : SyncState × List Event :=
  if dictContains s.cache f then
    (s, [])
  else
    match applyTransfer fn s f with
    | (s1, ev, none) =>
        let (s2, ev2) := update_data s1 f side
        (s2, ev ++ ev2)
    | (s1, ev, some _) => (s1, ev)

/-- StorageSynchronizer._reload_to_storage: when the cache has no entry,
the comparison int greater than None raises TypeError and the except
TypeError handler returns silently; otherwise the transfer runs only when
the given modification time strictly exceeds the cached one, other
failures being caught and logged. -/
def reload_to_storage (s : SyncState) (f : String) (modTime : Int)
    (side : Side) (fn : TransferFn) : SyncState × List Event :=
  match dictGet s.cache f with
  | none => (s, [])
  | some c =>
      if modTime > c then
        match applyTransfer fn s f with
        | (s1, ev, none) =>
            let (s2, ev2) := update_data s1 f side
            (s2, ev ++ ev2)
        | (s1, ev, some _) => (s1, ev)
      else
        (s, [])

/-- Dispatch manager.delete on the manager passed to _delete_in_storage. -/
def managerDelete : Side → SyncState → String →
    SyncState × List Event × Option PyErr
  | .localSide, s, f => local_delete s f
  | .cloudSide, s, f => cloud_delete s f

/-- Python equality storage_info == self._cloud_info: object identity
when the parameter is the cloud dict itself, structural dict equality
otherwise. -/
def eqCloudInfo (s : SyncState) (which : Side) : Bool :=
  which == .cloudSide || dictEq (infoOf s which) s.cloudInfo

/-- Python equality storage_info == self._local_info. -/
def eqLocalInfo (s : SyncState) (which : Side) : Bool :=
  which == .localSide || dictEq (infoOf s which) s.localInfo

/-- One iteration of the loop of _delete_in_storage for one cached name.
The first branch (not a first launch) deletes through the manager, then
calls _transfer_to_storage(name, local_info, cloud.load) and
_delete_data(name, other); FileNotFoundError from the delete drops the
cache entry, any other exception is logged.  The second branch (first
launch, storage dict is the cloud one) uploads the file directly and
records it; its FileNotFoundError is caught by the outer per name handler
which also drops the cache entry. -/
def process_cache_name (mgr which other : Side) (isFirst : Bool)
    (s : SyncState) (f : String) : SyncState × List Event :=
  let (s1, ev1) :=
    if !dictContains (infoOf s which) f && !isFirst then
      match managerDelete mgr s f with
      | (sa, eva, none) =>
          let (sb, evb) := transfer_to_storage sa f .localSide .cloudLoad
          let (sc, evc) := delete_data sb f other
          (sc, eva ++ evb ++ evc)
      | (sa, eva, some .fileNotFound) =>
          let (sb, evb) := cacheEraseOp sa f
          (sb, eva ++ evb)
      | (sa, eva, some _) => (sa, eva)
    else
      (s, [])
  let (s2, ev2) :=
    if !dictContains (infoOf s1 which) f && isFirst then
      if eqCloudInfo s1 which then
        match cloud_load s1 f with
        | (sa, eva, none) =>
            let (sb, evb) := update_data sa f which
            (sb, eva ++ evb)
        | (sa, eva, some .fileNotFound) =>
            let (sb, evb) := cacheEraseOp sa f
            (sb, eva ++ evb)
        | (sa, eva, some _) => (sa, eva)
      else
        (s1, [])
    else
      (s1, [])
  (s2, ev1 ++ ev2)

/-- The loop of _delete_in_storage over the key snapshot of the cache. -/
def process_cache_names (mgr which other : Side) (isFirst : Bool) :
    List String → SyncState → SyncState × List Event
  | [], s => (s, [])
  | f :: rest, s =>
      let (s1, ev1) := process_cache_name mgr which other isFirst s f
      let (s2, ev2) := process_cache_names mgr which other isFirst rest s1
      (s2, ev1 ++ ev2)

/-- StorageSynchronizer._delete_in_storage.  The other side selector and
the full cache clear on a first launch with an empty storage dict happen
before the loop; the loop runs over list(cache.metadata) taken after the
potential clear. -/
def delete_in_storage (mgr which : Side) (isFirst : Bool)
    (s : SyncState) : SyncState × List Event :=
  let other : Side := if eqCloudInfo s which then .localSide else .cloudSide
  let (s1, ev1) :=
    if (infoOf s which).isEmpty && eqLocalInfo s which && isFirst then
      cacheClearOp s
    else
      (s, [])
  let (s2, ev2) := process_cache_names mgr which other isFirst
    (dictKeys s1.cache) s1
  (s2, ev1 ++ ev2)

/-- The loop of _sync_files_change_locally over the local snapshot taken
at loop entry (the loop body never mutates local_info, see the aliasing
note on cacheSet). -/
def sync_locally_go : List (String × Int) → SyncState →
    SyncState × List Event
  | [], s => (s, [])
  | (f, t) :: rest, s =>
      let (s1, ev1) := transfer_to_storage s f .cloudSide .cloudLoad
      let (s2, ev2) := reload_to_storage s1 f t .cloudSide .cloudReload
      let (s3, ev3) := sync_locally_go rest s2
      (s3, ev1 ++ ev2 ++ ev3)

/-- StorageSynchronizer._sync_files_change_locally. -/
def sync_files_change_locally (s : SyncState) : SyncState × List Event :=
  sync_locally_go s.localInfo s

/-- The loop of _sync_files_change_cloudy over the cloud snapshot. -/
def sync_cloudy_go : List (String × Int) → SyncState →
    SyncState × List Event
  | [], s => (s, [])
  | (f, t) :: rest, s =>
      let (s1, ev1) := transfer_to_storage s f .localSide .cloudDownload
      let (s2, ev2) := reload_to_storage s1 f t .localSide .cloudUpdate
      let (s3, ev3) := sync_cloudy_go rest s2
      (s3, ev1 ++ ev2 ++ ev3)

/-- StorageSynchronizer._sync_files_change_cloudy. -/
def sync_files_change_cloudy (s : SyncState) : SyncState × List Event :=
  sync_cloudy_go s.cloudInfo s

/-- The try body of synchronize_data: snapshot the local store (rebinding
local_info breaks any aliasing with the cache), seed an empty cache from
the local snapshot verbatim (making the two the same dict object), run
the local phase and deletion reconciliation, and on a first launch also
snapshot the remote store and run the mirrored phase. -/
def synchronize_body (isFirst : Bool) (s : SyncState) :
    SyncState × List Event × Option PyErr :=
  match local_get_info s with
  | (sL, .error e) => (sL, [], some e)
  | (sL, .ok linfo) =>
      let s0 := { sL with localInfo := linfo, cacheAlias := false }
      let s1 := if s0.cache.isEmpty
        then { s0 with cache := s0.localInfo, cacheAlias := true }
        else s0
      let (s2, ev1) := sync_files_change_locally s1
      let (s3, ev2) := delete_in_storage .cloudSide .localSide isFirst s2
      if isFirst then
        match cloud_get_info s3 with
        | (sC, .error e) => (sC, ev1 ++ ev2, some e)
        | (sC, .ok cinfo) =>
            let s4 := { sC with cloudInfo := cinfo }
            let (s5, ev3) := sync_files_change_cloudy s4
            let (s6, ev4) := delete_in_storage .localSide .cloudSide isFirst s5
            (s6, ev1 ++ ev2 ++ ev3 ++ ev4, none)
      else
        (s3, ev1 ++ ev2, none)

/-- StorageSynchronizer.synchronize_data with its top level handlers, in
source order: ConnectionError and UnauthorizedError end the pass with a
log line; OSError (of which FileNotFoundError is a subclass) and
DiskNotFoundError trigger one immediate recursive restart with
is_first_launch true; anything else (such as the TypeError escaping a
local listing) is logged and the pass ends.  The fuel argument bounds the
restart recursion, which in this model terminates because both failing
get_info calls recreate their missing resource before raising. -/
def synchronize_data (fuel : Nat) (isFirst : Bool) (s : SyncState) :
    SyncState × List Event :=
  let (s1, ev, err) := synchronize_body isFirst s
  match err with
  | none => (s1, ev)
  | some .connectionError => (s1, ev)
  | some .unauthorized => (s1, ev)
  | some .osError | some .fileNotFound | some .diskNotFound =>
      match fuel with
      | 0 => (s1, ev)
      | n + 1 =>
          let (s2, ev2) := synchronize_data n true s1
          (s2, ev ++ Event.restart :: ev2)
  | some _ => (s1, ev)

/-- main.launch_file_synchronizer up to and including the initial pass:
the process wide offset is the result of the single NTP request, and the
first pass runs with is_first_launch true. -/
def launch_file_synchronizer (o : NtpOutcome) (s : SyncState) :
    SyncState × List Event :=
  synchronize_data 3 true { s with syncTime := get_ntp_time o }

/-- Name a per file event is about, if any. -/
def evName : Event → Option String
  | .upload f => some f
  | .overwriteRemote f => some f
  | .download f => some f
  | .overwriteLocal f => some f
  | .deleteCloudFile f => some f
  | .deleteLocalFile f => some f
  | .cacheWrite f _ => some f
  | .cacheErase f => some f
  | .cacheClear => none
  | .restart => none

/-- Number of successful overwrite remote calls for one file in a trace. -/
def countOverwriteRemote (f : String) (tr : List Event) : Nat :=
  tr.countP (fun e => e == Event.overwriteRemote f)

/-- Number of cache updates for one file in a trace. -/
def countCacheWrites (f : String) (tr : List Event) : Nat :=
  tr.countP (fun e => match e with
    | .cacheWrite g _ => g == f
    | _ => false)

/-- First match lookup among the cloud folder items. -/
def cloudLookup : List (String × CloudMeta) → String → Option CloudMeta
  | [], _ => none
  | (n, m) :: rest, f => if n = f then some m else cloudLookup rest f

/-- A state whose local directory is missing. -/
def stateDirMissing : SyncState :=
  { localStore := { dirExists := false, files := [] },
    cloudStore := { folderExists := true, items := [] },
    localInfo := [], cloudInfo := [], cache := [("a", 1)],
    cacheAlias := false, syncTime := 0, now := 5 }

/-- A state with one readable and one unreadable local file. -/
def stateUnreadableFile : SyncState :=
  { localStore :=
      { dirExists := true,
        files := [("a", { mtime := 1, readable := true, isFile := true }),
                  ("b", { mtime := 2, readable := false, isFile := true })] },
    cloudStore := { folderExists := true, items := [] },
    localInfo := [], cloudInfo := [], cache := [("a", 1)],
    cacheAlias := false, syncTime := 0, now := 5 }

/-- The sample scenario of the specification: two fresh local files with
modification times 100 and 200, empty cache, empty remote folder; the
clock offset is 7 and the wall clock during the pass reads 1000. -/
def stateSampleScenario : SyncState :=
  { localStore :=
      { dirExists := true,
        files := [("a.txt", { mtime := 100, readable := true, isFile := true }),
                  ("b.txt", { mtime := 200, readable := true, isFile := true })] },
    cloudStore := { folderExists := true, items := [] },
    localInfo := [], cloudInfo := [], cache := [],
    cacheAlias := false, syncTime := 7, now := 1000 }

/-- A state with one local file whose modification time lies in the
future of the wall clock. -/
def stateFutureMtime : SyncState :=
  { localStore :=
      { dirExists := true,
        files := [("a", { mtime := 100, readable := true, isFile := true })] },
    cloudStore := { folderExists := true, items := [] },
    localInfo := [], cloudInfo := [], cache := [("a", 5)],
    cacheAlias := false, syncTime := 0, now := 0 }

/-- A state with a cached name that is absent from the remote folder and
from the remote snapshot but still present locally. -/
def stateRemoteMissing : SyncState :=
  { localStore :=
      { dirExists := true,
        files := [("a", { mtime := 1, readable := true, isFile := true })] },
    cloudStore := { folderExists := true, items := [] },
    localInfo := [], cloudInfo := [], cache := [("a", 1)],
    cacheAlias := false, syncTime := 0, now := 1 }

/-- A state with a cached name that was deleted locally but still exists
remotely. -/
def stateLocalDeleted : SyncState :=
  { localStore := { dirExists := true, files := [] },
    cloudStore :=
      { folderExists := true,
        items := [("g", { mtime := 5, isFile := true })] },
    localInfo := [], cloudInfo := [], cache := [("g", 5)],
    cacheAlias := false, syncTime := 0, now := 10 }

/-- A state about to run deletion reconciliation on a first pass with an
empty local snapshot while the remote side still has the cached file. -/
def stateEmptyLocalSnapshot : SyncState :=
  { localStore := { dirExists := true, files := [] },
    cloudStore :=
      { folderExists := true,
        items := [("r", { mtime := 3, isFile := true })] },
    localInfo := [], cloudInfo := [("r", 3)], cache := [("r", 3)],
    cacheAlias := false, syncTime := 0, now := 5 }

/-- A state with a cached file whose local copy is newer than the cached
time, next to one whose local copy is unchanged. -/
def stateLocallyModified : SyncState :=
  { localStore :=
      { dirExists := true,
        files := [("a", { mtime := 50, readable := true, isFile := true }),
                  ("b", { mtime := 10, readable := true, isFile := true })] },
    cloudStore :=
      { folderExists := true,
        items := [("a", { mtime := 10, isFile := true }),
                  ("b", { mtime := 10, isFile := true })] },
    localInfo := [], cloudInfo := [], cache := [("a", 10), ("b", 10)],
    cacheAlias := false, syncTime := 0, now := 60 }

/-- The state right after the local snapshot assignment and the seeding
check at the top of the try body of synchronize_data. -/
def afterListing (s : SyncState) (L : Info) : SyncState :=
  let s0 : SyncState := { s with localInfo := L, cacheAlias := false }
  if s0.cache.isEmpty then
    { s0 with cache := s0.localInfo, cacheAlias := true }
  else s0

/-! Dictionary lemmas. -/

theorem dictGet_set_self (d : Info) (f : String) (t : Int) :
    dictGet (dictSet d f t) f = some t := by
  induction d with
  | nil => simp [dictSet, dictGet]
  | cons p rest ih =>
      obtain ⟨k, v⟩ := p
      by_cases h : k = f <;> simp [dictSet, dictGet, h, ih]

theorem dictGet_set_ne (d : Info) (f g : String) (t : Int) (h : g ≠ f) :
    dictGet (dictSet d f t) g = dictGet d g := by
  have hfg : ¬ f = g := fun hh => h hh.symm
  induction d with
  | nil => simp [dictSet, dictGet, hfg]
  | cons p rest ih =>
      obtain ⟨k, v⟩ := p
      by_cases hk : k = f
      · subst hk
        simp [dictSet, dictGet, hfg]
      · simp [dictSet, dictGet, hk, ih]

theorem dictGet_erase_self (d : Info) (f : String) :
    dictGet (dictErase d f) f = none := by
  induction d with
  | nil => simp [dictErase, dictGet]
  | cons p rest ih =>
      obtain ⟨k, v⟩ := p
      by_cases hk : k = f
      · simp only [dictErase, List.filter_cons] at ih ⊢
        simpa [hk] using ih
      · simp only [dictErase, List.filter_cons] at ih ⊢
        simpa [hk, dictGet] using ih

theorem dictGet_erase_ne (d : Info) (f g : String) (h : g ≠ f) :
    dictGet (dictErase d f) g = dictGet d g := by
  induction d with
  | nil => simp [dictErase, dictGet]
  | cons p rest ih =>
      obtain ⟨k, v⟩ := p
      by_cases hk : k = f
      · subst hk
        have hkg : ¬ k = g := fun hh => h (hh.symm)
        simp only [dictErase, List.filter_cons] at ih ⊢
        simpa [hkg, dictGet] using ih
      · simp only [dictErase, List.filter_cons] at ih ⊢
        by_cases hg : k = g
        · simp [hk, hg, h, dictGet]
        · simpa [hk, hg, h, dictGet] using ih

theorem dictErase_of_absent (d : Info) (f : String)
    (h : dictGet d f = none) : dictErase d f = d := by
  induction d with
  | nil => simp [dictErase]
  | cons p rest ih =>
      obtain ⟨k, v⟩ := p
      by_cases hk : k = f
      · simp [dictGet, hk] at h
      · simp only [dictGet, if_neg hk] at h
        simp only [dictErase, List.filter_cons] at ih ⊢
        simp [hk, ih h]

theorem dictKeys_cons (k : String) (v : Int) (rest : Info) :
    dictKeys ((k, v) :: rest) = k :: dictKeys rest := rfl

theorem dictGet_none_of_not_mem_keys (d : Info) (f : String)
    (h : f ∉ dictKeys d) : dictGet d f = none := by
  induction d with
  | nil => simp [dictGet]
  | cons p rest ih =>
      obtain ⟨k, v⟩ := p
      rw [dictKeys_cons, List.mem_cons, not_or] at h
      have hk : ¬ k = f := fun hh => h.1 hh.symm
      simp [dictGet, hk, ih h.2]

theorem dictGet_isSome_of_mem_keys (d : Info) (f : String)
    (h : f ∈ dictKeys d) : (dictGet d f).isSome := by
  induction d with
  | nil => simp [dictKeys] at h
  | cons p rest ih =>
      obtain ⟨k, v⟩ := p
      rw [dictKeys_cons, List.mem_cons] at h
      by_cases hk : k = f
      · simp [dictGet, hk]
      · rcases h with h | h
        · exact absurd h.symm hk
        · simp [dictGet, hk, ih h]

theorem dictGet_of_mem (d : Info) (f : String) (t : Int)
    (hnd : (dictKeys d).Nodup) (h : (f, t) ∈ d) : dictGet d f = some t := by
  induction d with
  | nil => simp at h
  | cons p rest ih =>
      obtain ⟨k, v⟩ := p
      rw [dictKeys_cons, List.nodup_cons] at hnd
      rcases List.mem_cons.mp h with h1 | h1
      · have hf : f = k := congrArg Prod.fst h1
        have ht : t = v := congrArg Prod.snd h1
        subst hf
        subst ht
        simp [dictGet]
      · have hk : k ≠ f := by
          intro hk
          subst hk
          exact hnd.1 (List.mem_map.mpr ⟨(k, t), h1, rfl⟩)
        simp [dictGet, hk, ih hnd.2 h1]

theorem dictKeys_set_of_present (d : Info) (f : String) (t w : Int)
    (h : dictGet d f = some w) : dictKeys (dictSet d f t) = dictKeys d := by
  induction d with
  | nil => simp [dictGet] at h
  | cons p rest ih =>
      obtain ⟨k, v⟩ := p
      by_cases hk : k = f
      · subst hk
        simp [dictSet, dictKeys]
      · simp only [dictGet, if_neg hk] at h
        simp [dictSet, hk, dictKeys_cons, ih h]

theorem dictKeys_set_of_absent (d : Info) (f : String) (t : Int)
    (h : dictGet d f = none) : dictKeys (dictSet d f t) = dictKeys d ++ [f] := by
  induction d with
  | nil => simp [dictSet, dictKeys]
  | cons p rest ih =>
      obtain ⟨k, v⟩ := p
      by_cases hk : k = f
      · simp [dictGet, hk] at h
      · simp only [dictGet, if_neg hk] at h
        simp [dictSet, hk, dictKeys_cons, ih h]

theorem dictKeys_set_nodup (d : Info) (f : String) (t : Int)
    (h : (dictKeys d).Nodup) : (dictKeys (dictSet d f t)).Nodup := by
  cases hg : dictGet d f with
  | some w => rw [dictKeys_set_of_present d f t w hg]; exact h
  | none =>
      rw [dictKeys_set_of_absent d f t hg]
      rw [List.nodup_append]
      refine ⟨h, List.nodup_singleton f, ?_⟩
      intro a ha hmem
      rw [List.mem_singleton] at hmem
      subst hmem
      have := dictGet_isSome_of_mem_keys d a ha
      rw [hg] at this
      simp at this

theorem dictKeys_erase_nodup (d : Info) (f : String)
    (h : (dictKeys d).Nodup) : (dictKeys (dictErase d f)).Nodup :=
  h.sublist ((List.filter_sublist d).map Prod.fst)

theorem dictContains_eq_isSome (d : Info) (f : String) :
    dictContains d f = (dictGet d f).isSome := rfl

/-! Listing lemmas for the local store. -/

theorem localFileLookup_none_of_not_mem (files : List (String × FileMeta))
    (f : String) (h : f ∉ files.map Prod.fst) :
    localFileLookup files f = none := by
  induction files with
  | nil => simp [localFileLookup]
  | cons p rest ih =>
      obtain ⟨k, v⟩ := p
      rw [List.map_cons, List.mem_cons, not_or] at h
      have hk : ¬ k = f := fun hh => h.1 hh.symm
      simp [localFileLookup, hk, ih h.2]

theorem local_listing_go_nodup (D : Int) (files : List (String × FileMeta))
    (acc L : Info) (hok : local_listing_go D files acc = .ok L)
    (hacc : (dictKeys acc).Nodup) : (dictKeys L).Nodup := by
  induction files generalizing acc with
  | nil =>
      simp only [local_listing_go] at hok
      cases hok
      exact hacc
  | cons p rest ih =>
      obtain ⟨n, m⟩ := p
      by_cases hpass : (m.isFile && !startsWithTilde n) = true
      · by_cases hr : m.readable = true
        · simp only [local_listing_go, hpass, if_true, hr] at hok
          exact ih _ hok (dictKeys_set_nodup _ _ _ hacc)
        · simp only [local_listing_go, hpass, if_true, hr] at hok
          simp at hr
          simp [hr] at hok
      · simp only [local_listing_go, hpass] at hok
        exact ih _ hok hacc

theorem local_listing_go_get_absent (D : Int)
    (files : List (String × FileMeta)) (acc L : Info) (f : String)
    (hok : local_listing_go D files acc = .ok L)
    (hf : localFileLookup files f = none) :
    dictGet L f = dictGet acc f := by
  induction files generalizing acc with
  | nil =>
      simp only [local_listing_go] at hok
      cases hok
      rfl
  | cons p rest ih =>
      obtain ⟨n, m⟩ := p
      have hn : ¬ n = f := by
        intro hh
        simp [localFileLookup, hh] at hf
      simp only [localFileLookup, if_neg hn] at hf
      by_cases hpass : (m.isFile && !startsWithTilde n) = true
      · by_cases hr : m.readable = true
        · simp only [local_listing_go, hpass, if_true, hr] at hok
          rw [ih _ hok hf]
          exact dictGet_set_ne acc n f _ (fun hh => hn hh.symm)
        · simp only [local_listing_go, hpass, if_true, hr] at hok
          simp at hr
          simp [hr] at hok
      · simp only [local_listing_go, hpass] at hok
        exact ih _ hok hf

theorem local_listing_go_get_mem (D : Int)
    (files : List (String × FileMeta)) (acc L : Info) (f : String)
    (m : FileMeta) (hnd : (files.map Prod.fst).Nodup)
    (hok : local_listing_go D files acc = .ok L)
    (hf : localFileLookup files f = some m)
    (hfile : m.isFile = true) (htilde : startsWithTilde f = false) :
    dictGet L f = some (get_time_correlation m.mtime D) := by
  induction files generalizing acc with
  | nil => simp [localFileLookup] at hf
  | cons p rest ih =>
      obtain ⟨n, mm⟩ := p
      rw [List.map_cons, List.nodup_cons] at hnd
      by_cases hn : n = f
      · subst hn
        simp only [localFileLookup, if_pos rfl] at hf
        cases hf
        have hrest : localFileLookup rest n = none :=
          localFileLookup_none_of_not_mem rest n hnd.1
        have hpass : (m.isFile && !startsWithTilde n) = true := by
          simp [hfile, htilde]
        by_cases hr : m.readable = true
        · simp only [local_listing_go, hpass, if_true, hr] at hok
          rw [local_listing_go_get_absent D rest _ L n hok hrest]
          exact dictGet_set_self acc n _
        · simp only [local_listing_go, hpass, if_true, hr] at hok
          simp at hr
          simp [hr] at hok
      · simp only [localFileLookup, if_neg hn] at hf
        by_cases hpass : (mm.isFile && !startsWithTilde n) = true
        · by_cases hr : mm.readable = true
          · simp only [local_listing_go, hpass, if_true, hr] at hok
            exact ih _ hnd.2 hok hf
          · simp only [local_listing_go, hpass, if_true, hr] at hok
            simp at hr
            simp [hr] at hok
        · simp only [local_listing_go, hpass] at hok
          exact ih _ hnd.2 hok hf

theorem local_listing_go_inv (D : Int)
    (files : List (String × FileMeta)) (acc L : Info) (f : String) (t : Int)
    (hnd : (files.map Prod.fst).Nodup)
    (hok : local_listing_go D files acc = .ok L)
    (hL : dictGet L f = some t) (hacc : dictGet acc f = none) :
    ∃ m, localFileLookup files f = some m ∧ m.isFile = true
      ∧ startsWithTilde f = false ∧ m.readable = true
      ∧ t = get_time_correlation m.mtime D := by
  induction files generalizing acc with
  | nil =>
      simp only [local_listing_go] at hok
      cases hok
      rw [hL] at hacc
      cases hacc
  | cons p rest ih =>
      obtain ⟨n, mm⟩ := p
      rw [List.map_cons, List.nodup_cons] at hnd
      by_cases hn : n = f
      · subst hn
        have hrest : localFileLookup rest n = none :=
          localFileLookup_none_of_not_mem rest n hnd.1
        by_cases hpass : (mm.isFile && !startsWithTilde n) = true
        · by_cases hr : mm.readable = true
          · simp only [local_listing_go, hpass, if_true, hr] at hok
            have := local_listing_go_get_absent D rest _ L n hok hrest
            rw [hL, dictGet_set_self acc n _] at this
            have hval := Option.some.inj this
            rw [Bool.and_eq_true, Bool.not_eq_true'] at hpass
            exact ⟨mm, by simp [localFileLookup], hpass.1, hpass.2, hr, hval⟩
          · simp only [local_listing_go, hpass, if_true, hr] at hok
            simp at hr
            simp [hr] at hok
        · simp only [local_listing_go, hpass] at hok
          have := local_listing_go_get_absent D rest _ L n hok hrest
          rw [hL, hacc] at this
          cases this
      · simp only [localFileLookup, if_neg hn]
        by_cases hpass : (mm.isFile && !startsWithTilde n) = true
        · by_cases hr : mm.readable = true
          · simp only [local_listing_go, hpass, if_true, hr] at hok
            have hacc2 : dictGet (dictSet acc n (get_time_correlation mm.mtime D)) f = none := by
              rw [dictGet_set_ne acc n f _ (fun hh => hn hh.symm)]
              exact hacc
            exact ih _ hnd.2 hok hacc2
          · simp only [local_listing_go, hpass, if_true, hr] at hok
            simp at hr
            simp [hr] at hok
        · simp only [local_listing_go, hpass] at hok
          exact ih _ hnd.2 hok hacc

theorem local_listing_nodup (files : List (String × FileMeta)) (D : Int)
    (L : Info) (hok : local_listing files D = .ok L) : (dictKeys L).Nodup :=
  local_listing_go_nodup D files [] L hok (by simp [dictKeys])

theorem local_listing_get_mem (files : List (String × FileMeta)) (D : Int)
    (L : Info) (f : String) (m : FileMeta)
    (hnd : (files.map Prod.fst).Nodup) (hok : local_listing files D = .ok L)
    (hf : localFileLookup files f = some m) (hfile : m.isFile = true)
    (htilde : startsWithTilde f = false) :
    dictGet L f = some (get_time_correlation m.mtime D) :=
  local_listing_go_get_mem D files [] L f m hnd hok hf hfile htilde

theorem local_listing_inv (files : List (String × FileMeta)) (D : Int)
    (L : Info) (f : String) (t : Int)
    (hnd : (files.map Prod.fst).Nodup) (hok : local_listing files D = .ok L)
    (hL : dictGet L f = some t) :
    ∃ m, localFileLookup files f = some m ∧ m.isFile = true
      ∧ startsWithTilde f = false ∧ m.readable = true
      ∧ t = get_time_correlation m.mtime D :=
  local_listing_go_inv D files [] L f t hnd hok hL (by simp [dictGet])

/-! Listing lemmas for the remote store. -/

theorem cloudLookup_none_of_not_mem (items : List (String × CloudMeta))
    (f : String) (h : f ∉ items.map Prod.fst) :
    cloudLookup items f = none := by
  induction items with
  | nil => simp [cloudLookup]
  | cons p rest ih =>
      obtain ⟨k, v⟩ := p
      rw [List.map_cons, List.mem_cons, not_or] at h
      have hk : ¬ k = f := fun hh => h.1 hh.symm
      simp [cloudLookup, hk, ih h.2]

theorem visible_cloud_go_absent (items : List (String × CloudMeta))
    (acc : Info) (f : String) (hf : cloudLookup items f = none) :
    dictGet (visible_cloud_go items acc) f = dictGet acc f := by
  induction items generalizing acc with
  | nil => simp [visible_cloud_go]
  | cons p rest ih =>
      obtain ⟨n, m⟩ := p
      have hn : ¬ n = f := by
        intro hh
        simp [cloudLookup, hh] at hf
      simp only [cloudLookup, if_neg hn] at hf
      by_cases hpass : (m.isFile && !startsWithTilde n) = true
      · simp only [visible_cloud_go, hpass, if_true]
        rw [ih _ hf]
        exact dictGet_set_ne acc n f _ (fun hh => hn hh.symm)
      · simp only [visible_cloud_go, hpass]
        exact ih _ hf

theorem visible_cloud_go_mem (items : List (String × CloudMeta))
    (acc : Info) (f : String) (m : CloudMeta)
    (hnd : (items.map Prod.fst).Nodup)
    (hf : cloudLookup items f = some m)
    (hfile : m.isFile = true) (htilde : startsWithTilde f = false) :
    dictGet (visible_cloud_go items acc) f = some m.mtime := by
  induction items generalizing acc with
  | nil => simp [cloudLookup] at hf
  | cons p rest ih =>
      obtain ⟨n, mm⟩ := p
      rw [List.map_cons, List.nodup_cons] at hnd
      by_cases hn : n = f
      · subst hn
        simp only [cloudLookup, if_pos rfl] at hf
        cases hf
        have hrest : cloudLookup rest n = none :=
          cloudLookup_none_of_not_mem rest n hnd.1
        have hpass : (m.isFile && !startsWithTilde n) = true := by
          simp [hfile, htilde]
        simp only [visible_cloud_go, hpass, if_true]
        rw [visible_cloud_go_absent rest _ n hrest]
        exact dictGet_set_self acc n _
      · simp only [cloudLookup, if_neg hn] at hf
        by_cases hpass : (mm.isFile && !startsWithTilde n) = true
        · simp only [visible_cloud_go, hpass, if_true]
          exact ih _ hnd.2 hf
        · simp only [visible_cloud_go, hpass]
          exact ih _ hnd.2 hf

theorem visible_cloud_get_mem (cs : CloudStore) (f : String) (m : CloudMeta)
    (hnd : (cs.items.map Prod.fst).Nodup)
    (hf : cloudLookup cs.items f = some m)
    (hfile : m.isFile = true) (htilde : startsWithTilde f = false) :
    dictGet (visible_cloud cs) f = some m.mtime :=
  visible_cloud_go_mem cs.items [] f m hnd hf hfile htilde

theorem visible_cloud_get_absent (cs : CloudStore) (f : String)
    (hf : cloudLookup cs.items f = none) :
    dictGet (visible_cloud cs) f = none := by
  rw [visible_cloud, visible_cloud_go_absent cs.items [] f hf]
  rfl

/-! Claim C8: cache load failure handling. -/

/-- C8 counterexample: a backing file whose content is the JSON array []
is well formed JSON but fails to parse as the serialized mapping, yet
constructing the metadata cache keeps that array instead of yielding an
empty mapping. -/
theorem c8_counterexample :
    metadata_init (.parsed (.jArr [])) ≠ JsonDoc.jObj [] := by
  decide

/-- C8 amended: a missing backing file, a read error, or a JSON syntax
error each degrade the constructed metadata cache to an empty mapping
without raising; a file that parses as JSON of any other shape is kept
exactly as parsed, also without raising. -/
theorem c8_amended :
    metadata_init .fileMissing = JsonDoc.jObj []
    ∧ metadata_init .ioError = JsonDoc.jObj []
    ∧ metadata_init .decodeError = JsonDoc.jObj []
    ∧ ∀ d, metadata_init (.parsed d) = d :=
  ⟨rfl, rfl, rfl, fun _ => rfl⟩

/-! Claim C10: NTP failure degrades to offset zero. -/

/-- C10: when the NTP lookup fails the process wide offset is 0, startup
proceeds into the first pass exactly as with an explicit zero offset, and
every corrected timestamp equals the raw clock value. -/
theorem c10_ntp_failure_offset_zero :
    get_ntp_time .failed = 0
    ∧ (∀ T : Int, get_time_correlation T (get_ntp_time .failed) = T)
    ∧ ∀ s : SyncState, launch_file_synchronizer .failed s
        = synchronize_data 3 true { s with syncTime := 0 } :=
  ⟨rfl, fun T => by simp [get_time_correlation, get_ntp_time], fun _ => rfl⟩

/-! Claim C2: clock correction in the snapshots. -/

/-- C2 counterexample: with offset 7, a remote item with raw modification
time 100 appears in the remote snapshot as 100, not as the corrected
value 107 the claim requires for both stores. -/
theorem c2_counterexample :
    visible_cloud
        { folderExists := true,
          items := [("a", { mtime := 100, isFile := true })] }
      = [("a", 100)]
    ∧ dictGet
        (visible_cloud
          { folderExists := true,
            items := [("a", { mtime := 100, isFile := true })] }) "a"
      ≠ some (get_time_correlation 100 7) := by
  refine ⟨by rfl, ?_⟩
  decide

/-- C2 amended: every entry of the local snapshot carries the corrected
time, raw modification time plus the process wide offset, while every
entry of the remote snapshot carries the raw remote timestamp with no
offset applied. -/
theorem c2_amended :
    (∀ (files : List (String × FileMeta)) (D : Int) (L : Info)
       (f : String) (m : FileMeta),
       (files.map Prod.fst).Nodup →
       local_listing files D = .ok L →
       localFileLookup files f = some m → m.isFile = true →
       startsWithTilde f = false →
       dictGet L f = some (get_time_correlation m.mtime D))
    ∧ (∀ (cs : CloudStore) (f : String) (m : CloudMeta),
       (cs.items.map Prod.fst).Nodup →
       cloudLookup cs.items f = some m → m.isFile = true →
       startsWithTilde f = false →
       dictGet (visible_cloud cs) f = some m.mtime) :=
  ⟨fun files D L f m hnd hok hf hfile htilde =>
      local_listing_get_mem files D L f m hnd hok hf hfile htilde,
   fun cs f m hnd hf hfile htilde =>
      visible_cloud_get_mem cs f m hnd hf hfile htilde⟩

/-- C2 amended, witness at a concrete input: one readable local file with
raw time 100 under offset 7 is listed as 107, and one remote item with
raw time 100 is listed as 100. -/
theorem c2_amended_witness :
    dictGet [("a", get_time_correlation 100 7)] "a"
        = some (get_time_correlation 100 7)
    ∧ dictGet
        (visible_cloud
          { folderExists := true,
            items := [("a", { mtime := 100, isFile := true })] }) "a"
      = some 100 :=
  ⟨(c2_amended.1 [("a", { mtime := 100, readable := true, isFile := true })]
      7 [("a", get_time_correlation 100 7)] "a"
      { mtime := 100, readable := true, isFile := true }
      (by decide) (by rfl) (by decide) (by decide) (by decide)),
   (c2_amended.2
      { folderExists := true,
        items := [("a", { mtime := 100, isFile := true })] } "a"
      { mtime := 100, isFile := true } (by decide) (by decide) (by decide)
      (by decide))⟩

/-! Claim C3: per file fault isolation in the local listing. -/

/-- C3: an access error while reading one file's modification time makes
the whole local listing raise TypeError instead of skipping that file,
and the surrounding pass then aborts with no per file work done at all;
here file b is unreadable and file a is never processed either. -/
theorem c3_listing_aborts_on_one_bad_file :
    local_listing stateUnreadableFile.localStore.files 0
      = .error .typeError
    ∧ (synchronize_data 2 false stateUnreadableFile).2 = []
    ∧ (synchronize_data 2 false stateUnreadableFile).1.cache
        = stateUnreadableFile.cache := by
  refine ⟨by rfl, by rfl, by rfl⟩

/-! Claim C9: first pass cache clear on an empty local snapshot. -/

/-- C9: on a first pass call of deletion reconciliation with the local
snapshot dict being empty, the whole cache is cleared and persisted
before the per entry loop runs (the loop then sees no entries), whatever
the cache, the remote snapshot and the remote store contain. -/
theorem c9_first_pass_empty_local_clears_cache (s : SyncState)
    (h : s.localInfo = []) :
    delete_in_storage .cloudSide .localSide true s
      = ({ s with cache := [], cacheAlias := false }, [Event.cacheClear]) := by
  simp [delete_in_storage, infoOf, h, eqLocalInfo, cacheClearOp,
    process_cache_names, dictKeys]

/-- C9 witness: the cache still holds the entry r, which also exists in
the remote store and the remote snapshot, yet the first pass clear wipes
it because the local snapshot is empty. -/
theorem c9_clear_witness :
    stateEmptyLocalSnapshot.localInfo = []
    ∧ dictContains stateEmptyLocalSnapshot.cache "r" = true
    ∧ dictContains stateEmptyLocalSnapshot.cloudInfo "r" = true
    ∧ delete_in_storage .cloudSide .localSide true stateEmptyLocalSnapshot
      = ({ stateEmptyLocalSnapshot with cache := [], cacheAlias := false },
         [Event.cacheClear]) :=
  ⟨rfl, by decide, by decide,
   c9_first_pass_empty_local_clears_cache stateEmptyLocalSnapshot rfl⟩

/-! Claim C7: restart with isFirstPass true on structural errors. -/

/-- C7: when the body of a pass raises OSError (local directory access
failure) or DiskNotFoundError (remote folder missing), synchronize_data
logs it, triggers exactly one immediate restart of the full pass with
is_first_launch true on the state the failed body left behind, and
returns normally rather than propagating the error. -/
theorem c7_restart_on_structural_error (n : Nat) (b : Bool) (s : SyncState)
    (e : PyErr) (hbody : (synchronize_body b s).2.2 = some e)
    (he : e = .osError ∨ e = .diskNotFound) :
    synchronize_data (n + 1) b s
      = ((synchronize_data n true (synchronize_body b s).1).1,
         (synchronize_body b s).2.1
           ++ Event.restart
              :: (synchronize_data n true (synchronize_body b s).1).2) := by
  rcases hr : synchronize_body b s with ⟨s1, ev, err⟩
  rw [hr] at hbody
  simp only at hbody
  subst hbody
  rcases hx : synchronize_data n true s1 with ⟨s2, ev2⟩
  rcases he with he | he <;> subst he <;>
    simp [synchronize_data, hr, hx]

/-- C7 witness: a missing local directory makes the body fail with
OSError, and the pass restarts itself once with the first launch flag. -/
theorem c7_restart_witness :
    (synchronize_body false stateDirMissing).2.2 = some PyErr.osError
    ∧ synchronize_data 2 false stateDirMissing
      = ((synchronize_data 1 true (synchronize_body false stateDirMissing).1).1,
         (synchronize_body false stateDirMissing).2.1
           ++ Event.restart
              :: (synchronize_data 1 true
                    (synchronize_body false stateDirMissing).1).2) :=
  ⟨by rfl,
   c7_restart_on_structural_error 1 false stateDirMissing PyErr.osError
     (by rfl) (Or.inl rfl)⟩

/-! Claim C1, counterexample part. -/

/-- C1 counterexample: the name a is in the cache and absent from the
remote snapshot (and from the remote store), the pass is not the first
one, yet the engine neither deletes the local file nor touches anything:
deletion reconciliation keys on the local snapshot, not the remote one. -/
theorem c1_counterexample :
    dictContains stateRemoteMissing.cache "a" = true
    ∧ dictContains stateRemoteMissing.cloudInfo "a" = false
    ∧ dictContains (visible_cloud stateRemoteMissing.cloudStore) "a" = false
    ∧ (synchronize_data 2 false stateRemoteMissing).1.localStore.files.map
        Prod.fst = ["a"]
    ∧ Event.deleteLocalFile "a" ∉ (synchronize_data 2 false stateRemoteMissing).2 := by
  refine ⟨by decide, by decide, by decide, by rfl, by decide⟩

/-! Claim C4, counterexample part. -/

/-- C4 counterexample: in the sample scenario with offset 7 the cache
ends the first pass at the corrected upload time 1007 for a.txt, not at
the corrected modification time 107 the claim states. -/
theorem c4_counterexample :
    dictGet (synchronize_data 2 true stateSampleScenario).1.cache "a.txt"
      = some 1007
    ∧ some (1007 : Int) ≠ some (get_time_correlation 100 7) := by
  refine ⟨by rfl, by decide⟩

/-! Claim C6, counterexample part. -/

/-- C6 counterexample: one local file carries a modification time ahead
of the wall clock; with no external change between the runs, the second
non first pass still performs an overwrite remote transfer, so the pair
of runs is not free of transfers. -/
theorem c6_counterexample :
    Event.overwriteRemote "a"
      ∈ (synchronize_data 2 false
          (synchronize_data 2 false stateFutureMtime).1).2 := by
  decide

/-! Step equations for the primitive state operations. -/

theorem cacheSet_no_alias (s : SyncState) (f : String) (t : Int)
    (h : s.cacheAlias = false) :
    cacheSet s f t = { s with cache := dictSet s.cache f t } := by
  simp [cacheSet, h]

theorem setInfo_cloud (s : SyncState) (f : String) (t : Int) :
    setInfo s .cloudSide f t
      = { s with cloudInfo := dictSet s.cloudInfo f t } := rfl

theorem eraseInfo_cloud (s : SyncState) (f : String) :
    eraseInfo s .cloudSide f
      = { s with cloudInfo := dictErase s.cloudInfo f } := rfl

theorem update_data_cloud_no_alias (s : SyncState) (f : String)
    (h : s.cacheAlias = false) :
    update_data s f .cloudSide
      = ({ s with
            cloudInfo := dictSet s.cloudInfo f
              (get_time_correlation s.now s.syncTime),
            cache := dictSet s.cache f
              (get_time_correlation s.now s.syncTime) },
         [.cacheWrite f (get_time_correlation s.now s.syncTime)]) := by
  simp [update_data, setInfo, cacheSet, h]

theorem cacheEraseOp_absent (s : SyncState) (f : String)
    (h : dictContains s.cache f = false) : cacheEraseOp s f = (s, []) := by
  simp [cacheEraseOp, h]

theorem cacheEraseOp_present_no_alias (s : SyncState) (f : String)
    (ha : s.cacheAlias = false) (h : dictContains s.cache f = true) :
    cacheEraseOp s f
      = ({ s with cache := dictErase s.cache f }, [.cacheErase f]) := by
  simp [cacheEraseOp, h, ha]

/-! Step equations for _transfer_to_storage and _reload_to_storage. -/

theorem transfer_noop (s : SyncState) (f : String) (side : Side)
    (fn : TransferFn) (hc : dictContains s.cache f = true) :
    transfer_to_storage s f side fn = (s, []) := by
  simp [transfer_to_storage, hc]

theorem reload_none (s : SyncState) (f : String) (t : Int) (side : Side)
    (fn : TransferFn) (hc : dictGet s.cache f = none) :
    reload_to_storage s f t side fn = (s, []) := by
  simp [reload_to_storage, hc]

theorem reload_stale (s : SyncState) (f : String) (t c : Int) (side : Side)
    (fn : TransferFn) (hc : dictGet s.cache f = some c) (hle : ¬ t > c) :
    reload_to_storage s f t side fn = (s, []) := by
  simp [reload_to_storage, hc, hle]

theorem cloud_reload_success (s : SyncState) (f : String)
    (hdir : s.localStore.dirExists = true)
    (hfolder : s.cloudStore.folderExists = true)
    (hfile : localHasFile s.localStore f = true) :
    cloud_reload s f
      = ({ s with cloudStore :=
            { s.cloudStore with
                items := (s.cloudStore.items.filter (fun p => p.1 != f))
                  ++ [(f, { mtime := s.now + s.syncTime, isFile := true })] } },
         [.overwriteRemote f], none) := by
  simp [cloud_reload, hdir, hfolder, hfile, cloudPut]

theorem cloud_load_success (s : SyncState) (f : String)
    (hdir : s.localStore.dirExists = true)
    (hfolder : s.cloudStore.folderExists = true)
    (hfile : localHasFile s.localStore f = true) :
    cloud_load s f
      = ({ s with cloudStore :=
            { s.cloudStore with
                items := (s.cloudStore.items.filter (fun p => p.1 != f))
                  ++ [(f, { mtime := s.now + s.syncTime, isFile := true })] } },
         [.upload f], none) := by
  simp [cloud_load, hdir, hfolder, hfile, cloudPut]

theorem reload_fires (s : SyncState) (f : String) (t c : Int)
    (halias : s.cacheAlias = false)
    (hdir : s.localStore.dirExists = true)
    (hfolder : s.cloudStore.folderExists = true)
    (hfile : localHasFile s.localStore f = true)
    (hc : dictGet s.cache f = some c) (hgt : t > c) :
    reload_to_storage s f t .cloudSide .cloudReload
      = ({ s with
            cloudStore :=
              { s.cloudStore with
                  items := (s.cloudStore.items.filter (fun p => p.1 != f))
                    ++ [(f, { mtime := s.now + s.syncTime, isFile := true })] },
            cloudInfo := dictSet s.cloudInfo f
              (get_time_correlation s.now s.syncTime),
            cache := dictSet s.cache f
              (get_time_correlation s.now s.syncTime) },
         [.overwriteRemote f,
          .cacheWrite f (get_time_correlation s.now s.syncTime)]) := by
  rw [reload_to_storage]
  rw [hc]
  simp only [hgt, if_true]
  rw [show applyTransfer .cloudReload s f = cloud_reload s f from rfl]
  rw [cloud_reload_success s f hdir hfolder hfile]
  dsimp only
  rw [update_data_cloud_no_alias _ f (by simp [halias])]
  rfl

theorem transfer_fires (s : SyncState) (f : String)
    (halias : s.cacheAlias = false)
    (hdir : s.localStore.dirExists = true)
    (hfolder : s.cloudStore.folderExists = true)
    (hfile : localHasFile s.localStore f = true)
    (hc : dictContains s.cache f = false) :
    transfer_to_storage s f .cloudSide .cloudLoad
      = ({ s with
            cloudStore :=
              { s.cloudStore with
                  items := (s.cloudStore.items.filter (fun p => p.1 != f))
                    ++ [(f, { mtime := s.now + s.syncTime, isFile := true })] },
            cloudInfo := dictSet s.cloudInfo f
              (get_time_correlation s.now s.syncTime),
            cache := dictSet s.cache f
              (get_time_correlation s.now s.syncTime) },
         [.upload f,
          .cacheWrite f (get_time_correlation s.now s.syncTime)]) := by
  rw [transfer_to_storage]
  simp only [hc, Bool.false_eq_true, if_false]
  rw [show applyTransfer .cloudLoad s f = cloud_load s f from rfl]
  rw [cloud_load_success s f hdir hfolder hfile]
  dsimp only
  rw [update_data_cloud_no_alias _ f (by simp [halias])]
  rfl

/-! Frame lemmas: what the per file operations leave untouched. -/

theorem applyTransfer_frame (fn : TransferFn) (s : SyncState) (g : String) :
    (applyTransfer fn s g).1.cache = s.cache
    ∧ (applyTransfer fn s g).1.localInfo = s.localInfo
    ∧ (applyTransfer fn s g).1.cloudInfo = s.cloudInfo
    ∧ (applyTransfer fn s g).1.cacheAlias = s.cacheAlias
    ∧ (applyTransfer fn s g).1.now = s.now
    ∧ (applyTransfer fn s g).1.syncTime = s.syncTime
    ∧ ∀ e ∈ (applyTransfer fn s g).2.1, evName e = some g := by
  cases fn <;>
    simp only [applyTransfer, cloud_load, cloud_reload, cloud_download,
      cloud_update, cloudPut, localPut] <;>
    split <;>
    try split <;> try split
  all_goals simp [evName]

theorem applyTransfer_cloud_frame (fn : TransferFn) (s : SyncState)
    (g : String) (hfn : fn = .cloudLoad ∨ fn = .cloudReload) :
    (applyTransfer fn s g).1.localStore = s.localStore
    ∧ (applyTransfer fn s g).1.cloudStore.folderExists
        = s.cloudStore.folderExists := by
  rcases hfn with h | h <;> subst h <;>
    simp only [applyTransfer, cloud_load, cloud_reload, cloudPut] <;>
    split <;>
    try split <;> try split
  all_goals simp

theorem update_data_other (s : SyncState) (g f : String) (side : Side)
    (hne : g ≠ f) :
    dictGet (update_data s g side).1.cache f = dictGet s.cache f
    ∧ dictGet (update_data s g side).1.localInfo f = dictGet s.localInfo f
    ∧ (update_data s g side).1.cacheAlias = s.cacheAlias
    ∧ (update_data s g side).1.localStore = s.localStore
    ∧ (update_data s g side).1.cloudStore = s.cloudStore
    ∧ (update_data s g side).1.now = s.now
    ∧ (update_data s g side).1.syncTime = s.syncTime
    ∧ ∀ e ∈ (update_data s g side).2, evName e = some g := by
  have hfg : f ≠ g := fun hh => hne hh.symm
  cases side <;>
    simp only [update_data, setInfo, cacheSet] <;>
    split <;>
    simp [dictGet_set_ne _ _ _ _ hfg, evName]

theorem transfer_other_frame (s : SyncState) (g f : String) (side : Side)
    (fn : TransferFn) (hne : g ≠ f) :
    dictGet (transfer_to_storage s g side fn).1.cache f = dictGet s.cache f
    ∧ dictGet (transfer_to_storage s g side fn).1.localInfo f
        = dictGet s.localInfo f
    ∧ (transfer_to_storage s g side fn).1.cacheAlias = s.cacheAlias
    ∧ ∀ e ∈ (transfer_to_storage s g side fn).2, evName e = some g := by
  unfold transfer_to_storage
  by_cases hc : dictContains s.cache g
  · simp [hc]
  · simp only [hc, Bool.false_eq_true, if_false]
    rcases hT : applyTransfer fn s g with ⟨s1, ev, err⟩
    have hF := applyTransfer_frame fn s g
    rw [hT] at hF
    simp only at hF
    obtain ⟨hc1, hl1, hcl1, ha1, hn1, hs1, hev1⟩ := hF
    cases err with
    | none =>
        have hU := update_data_other s1 g f side hne
        simp only at hU ⊢
        obtain ⟨hu1, hu2, hu3, _, _, _, _, huev⟩ := hU
        refine ⟨by rw [hu1, hc1], by rw [hu2, hl1], by rw [hu3, ha1], ?_⟩
        intro e he
        rcases List.mem_append.mp he with he | he
        · exact hev1 e he
        · exact huev e he
    | some e0 =>
        dsimp only
        exact ⟨by rw [hc1], by rw [hl1], ha1, hev1⟩

theorem reload_other_frame (s : SyncState) (g f : String) (t : Int)
    (side : Side) (fn : TransferFn) (hne : g ≠ f) :
    dictGet (reload_to_storage s g t side fn).1.cache f = dictGet s.cache f
    ∧ dictGet (reload_to_storage s g t side fn).1.localInfo f
        = dictGet s.localInfo f
    ∧ (reload_to_storage s g t side fn).1.cacheAlias = s.cacheAlias
    ∧ ∀ e ∈ (reload_to_storage s g t side fn).2, evName e = some g := by
  unfold reload_to_storage
  cases hg : dictGet s.cache g with
  | none => simp
  | some c =>
      by_cases hgt : t > c
      · simp only [hgt, if_true]
        rcases hT : applyTransfer fn s g with ⟨s1, ev, err⟩
        have hF := applyTransfer_frame fn s g
        rw [hT] at hF
        simp only at hF
        obtain ⟨hc1, hl1, hcl1, ha1, hn1, hs1, hev1⟩ := hF
        cases err with
        | none =>
            have hU := update_data_other s1 g f side hne
            simp only at hU ⊢
            obtain ⟨hu1, hu2, hu3, _, _, _, _, huev⟩ := hU
            refine ⟨by rw [hu1, hc1], by rw [hu2, hl1], by rw [hu3, ha1], ?_⟩
            intro e he
            rcases List.mem_append.mp he with he | he
            · exact hev1 e he
            · exact huev e he
        | some e0 =>
            dsimp only
            exact ⟨by rw [hc1], by rw [hl1], ha1, hev1⟩
      · simp [hgt]

/-! Counting lemmas. -/

theorem countOverwriteRemote_append (f : String) (a b : List Event) :
    countOverwriteRemote f (a ++ b)
      = countOverwriteRemote f a + countOverwriteRemote f b :=
  List.countP_append _ _ _

theorem countCacheWrites_append (f : String) (a b : List Event) :
    countCacheWrites f (a ++ b)
      = countCacheWrites f a + countCacheWrites f b :=
  List.countP_append _ _ _

theorem countOverwriteRemote_zero_of_named (ev : List Event) (g f : String)
    (hne : g ≠ f) (h : ∀ e ∈ ev, evName e = some g) :
    countOverwriteRemote f ev = 0 := by
  induction ev with
  | nil => rfl
  | cons e rest ih =>
      have he := h e (List.mem_cons_self e rest)
      have hrest := ih (fun x hx => h x (List.mem_cons_of_mem e hx))
      rw [countOverwriteRemote, List.countP_cons] at *
      have : ¬ (e == Event.overwriteRemote f) = true := by
        intro hb
        rw [beq_iff_eq] at hb
        subst hb
        simp [evName] at he
        exact hne he.symm
      simp only [this, if_false]
      simpa [countOverwriteRemote] using hrest

theorem countCacheWrites_zero_of_named (ev : List Event) (g f : String)
    (hne : g ≠ f) (h : ∀ e ∈ ev, evName e = some g) :
    countCacheWrites f ev = 0 := by
  induction ev with
  | nil => rfl
  | cons e rest ih =>
      have he := h e (List.mem_cons_self e rest)
      have hrest := ih (fun x hx => h x (List.mem_cons_of_mem e hx))
      rw [countCacheWrites, List.countP_cons]
      rw [countCacheWrites] at hrest
      rw [hrest]
      cases e
      case cacheWrite g2 t2 =>
        have hg2 : g2 = g := by simpa [evName] using he
        subst hg2
        simp [hne]
      all_goals simp

theorem counts_zero_of_delete_shape (ev : List Event) (f : String)
    (h : ∀ e ∈ ev, (∃ g, e = .deleteCloudFile g) ∨ ∃ g, e = .cacheErase g) :
    countOverwriteRemote f ev = 0 ∧ countCacheWrites f ev = 0 := by
  induction ev with
  | nil => exact ⟨rfl, rfl⟩
  | cons e rest ih =>
      have he := h e (List.mem_cons_self e rest)
      have hrest := ih (fun x hx => h x (List.mem_cons_of_mem e hx))
      rw [countOverwriteRemote, countCacheWrites, List.countP_cons,
        List.countP_cons]
      rcases he with ⟨g, rfl⟩ | ⟨g, rfl⟩ <;>
        simpa [countOverwriteRemote, countCacheWrites] using hrest

theorem countOverwriteRemote_zero_of_not_named (ev : List Event) (f : String)
    (h : ∀ e ∈ ev, evName e ≠ some f) : countOverwriteRemote f ev = 0 := by
  induction ev with
  | nil => rfl
  | cons e rest ih =>
      have he := h e (List.mem_cons_self e rest)
      have hrest := ih (fun x hx => h x (List.mem_cons_of_mem e hx))
      rw [countOverwriteRemote, List.countP_cons]
      rw [countOverwriteRemote] at hrest
      rw [hrest]
      have : ¬ (e == Event.overwriteRemote f) = true := by
        intro hb
        rw [beq_iff_eq] at hb
        subst hb
        exact he rfl
      simp [this]

theorem countCacheWrites_zero_of_not_named (ev : List Event) (f : String)
    (h : ∀ e ∈ ev, evName e ≠ some f) : countCacheWrites f ev = 0 := by
  induction ev with
  | nil => rfl
  | cons e rest ih =>
      have he := h e (List.mem_cons_self e rest)
      have hrest := ih (fun x hx => h x (List.mem_cons_of_mem e hx))
      rw [countCacheWrites, List.countP_cons]
      rw [countCacheWrites] at hrest
      rw [hrest]
      cases e
      case cacheWrite g2 t2 =>
        have : ¬ g2 = f := by
          intro hb
          subst hb
          exact he rfl
        simp [this]
      all_goals simp

/-! Frame lemmas for the cloud directed steps of the local phase. -/

theorem update_data_cloud_fields (s : SyncState) (g : String)
    (halias : s.cacheAlias = false) :
    (update_data s g .cloudSide).1.localStore = s.localStore
    ∧ (update_data s g .cloudSide).1.localInfo = s.localInfo
    ∧ (update_data s g .cloudSide).1.cacheAlias = false
    ∧ (update_data s g .cloudSide).1.now = s.now
    ∧ (update_data s g .cloudSide).1.syncTime = s.syncTime
    ∧ (update_data s g .cloudSide).1.cloudStore = s.cloudStore := by
  rw [update_data_cloud_no_alias s g halias]
  exact ⟨rfl, rfl, halias, rfl, rfl, rfl⟩

theorem transfer_cloud_fields (s : SyncState) (g : String) (fn : TransferFn)
    (hfn : fn = .cloudLoad ∨ fn = .cloudReload)
    (halias : s.cacheAlias = false) :
    (transfer_to_storage s g .cloudSide fn).1.localStore = s.localStore
    ∧ (transfer_to_storage s g .cloudSide fn).1.localInfo = s.localInfo
    ∧ (transfer_to_storage s g .cloudSide fn).1.cacheAlias = false
    ∧ (transfer_to_storage s g .cloudSide fn).1.now = s.now
    ∧ (transfer_to_storage s g .cloudSide fn).1.syncTime = s.syncTime
    ∧ (transfer_to_storage s g .cloudSide fn).1.cloudStore.folderExists
        = s.cloudStore.folderExists := by
  unfold transfer_to_storage
  by_cases hc : dictContains s.cache g
  · simp [hc, halias]
  · simp only [hc, Bool.false_eq_true, if_false]
    rcases hT : applyTransfer fn s g with ⟨s1, ev, err⟩
    have hF := applyTransfer_frame fn s g
    have hC := applyTransfer_cloud_frame fn s g hfn
    rw [hT] at hF hC
    simp only at hF hC
    obtain ⟨hc1, hl1, hcl1, ha1, hn1, hs1, _⟩ := hF
    obtain ⟨hls1, hfe1⟩ := hC
    cases err with
    | none =>
        have hU := update_data_cloud_fields s1 g (by rw [ha1]; exact halias)
        obtain ⟨hu1, hu2, hu3, hu4, hu5, hu6⟩ := hU
        dsimp only
        exact ⟨by rw [hu1, hls1], by rw [hu2, hl1], hu3,
          by rw [hu4, hn1], by rw [hu5, hs1],
          by rw [hu6, hfe1]⟩
    | some e0 =>
        dsimp only
        exact ⟨hls1, hl1, by rw [ha1]; exact halias, hn1, hs1, hfe1⟩

theorem reload_cloud_fields (s : SyncState) (g : String) (t : Int)
    (fn : TransferFn) (hfn : fn = .cloudLoad ∨ fn = .cloudReload)
    (halias : s.cacheAlias = false) :
    (reload_to_storage s g t .cloudSide fn).1.localStore = s.localStore
    ∧ (reload_to_storage s g t .cloudSide fn).1.localInfo = s.localInfo
    ∧ (reload_to_storage s g t .cloudSide fn).1.cacheAlias = false
    ∧ (reload_to_storage s g t .cloudSide fn).1.now = s.now
    ∧ (reload_to_storage s g t .cloudSide fn).1.syncTime = s.syncTime
    ∧ (reload_to_storage s g t .cloudSide fn).1.cloudStore.folderExists
        = s.cloudStore.folderExists := by
  unfold reload_to_storage
  cases hg : dictGet s.cache g with
  | none => simp [halias]
  | some c =>
      by_cases hgt : t > c
      · simp only [hgt, if_true]
        rcases hT : applyTransfer fn s g with ⟨s1, ev, err⟩
        have hF := applyTransfer_frame fn s g
        have hC := applyTransfer_cloud_frame fn s g hfn
        rw [hT] at hF hC
        simp only at hF hC
        obtain ⟨hc1, hl1, hcl1, ha1, hn1, hs1, _⟩ := hF
        obtain ⟨hls1, hfe1⟩ := hC
        cases err with
        | none =>
            have hU := update_data_cloud_fields s1 g (by rw [ha1]; exact halias)
            obtain ⟨hu1, hu2, hu3, hu4, hu5, hu6⟩ := hU
            dsimp only
            exact ⟨by rw [hu1, hls1], by rw [hu2, hl1], hu3,
              by rw [hu4, hn1], by rw [hu5, hs1],
              by rw [hu6, hfe1]⟩
        | some e0 =>
            dsimp only
            exact ⟨hls1, hl1, by rw [ha1]; exact halias, hn1, hs1, hfe1⟩
      · simp [hgt, halias]

/-- State fields of the local side preserved across the whole local
phase when the cache does not alias the local snapshot. -/
theorem sync_locally_fields (entries : List (String × Int)) (s : SyncState)
    (halias : s.cacheAlias = false) :
    (sync_locally_go entries s).1.localStore = s.localStore
    ∧ (sync_locally_go entries s).1.localInfo = s.localInfo
    ∧ (sync_locally_go entries s).1.cacheAlias = false
    ∧ (sync_locally_go entries s).1.now = s.now
    ∧ (sync_locally_go entries s).1.syncTime = s.syncTime
    ∧ (sync_locally_go entries s).1.cloudStore.folderExists
        = s.cloudStore.folderExists := by
  induction entries generalizing s with
  | nil => exact ⟨rfl, rfl, halias, rfl, rfl, rfl⟩
  | cons p rest ih =>
      obtain ⟨g, tg⟩ := p
      rw [sync_locally_go]
      rcases h1 : transfer_to_storage s g .cloudSide .cloudLoad with ⟨s1, ev1⟩
      rcases h2 : reload_to_storage s1 g tg .cloudSide .cloudReload with ⟨s2, ev2⟩
      have hT := transfer_cloud_fields s g .cloudLoad (Or.inl rfl) halias
      rw [h1] at hT
      simp only at hT
      obtain ⟨ht1, ht2, ht3, ht4, ht5, ht6⟩ := hT
      have hR := reload_cloud_fields s1 g tg .cloudReload (Or.inr rfl) ht3
      rw [h2] at hR
      simp only at hR
      obtain ⟨hr1, hr2, hr3, hr4, hr5, hr6⟩ := hR
      rcases h3 : sync_locally_go rest s2 with ⟨s3, ev3⟩
      have hI := ih s2 hr3
      rw [h3] at hI
      simp only at hI
      obtain ⟨hi1, hi2, hi3, hi4, hi5, hi6⟩ := hI
      dsimp only
      rw [h2]
      dsimp only
      rw [h3]
      dsimp only
      exact ⟨by rw [hi1, hr1, ht1], by rw [hi2, hr2, ht2], hi3,
        by rw [hi4, hr4, ht4], by rw [hi5, hr5, ht5],
        by rw [hi6, hr6, ht6]⟩

/-- Processing entries that do not mention f leaves the cache entry, the
local snapshot entry and the alias flag for f untouched and emits no
event about f. -/
theorem sync_locally_no_f (entries : List (String × Int)) (s : SyncState)
    (f : String) (hnf : dictGet entries f = none) :
    dictGet (sync_locally_go entries s).1.cache f = dictGet s.cache f
    ∧ dictGet (sync_locally_go entries s).1.localInfo f
        = dictGet s.localInfo f
    ∧ (sync_locally_go entries s).1.cacheAlias = s.cacheAlias
    ∧ ∀ e ∈ (sync_locally_go entries s).2, evName e ≠ some f := by
  induction entries generalizing s with
  | nil => exact ⟨rfl, rfl, rfl, by simp [sync_locally_go]⟩
  | cons p rest ih =>
      obtain ⟨g, tg⟩ := p
      have hg : ¬ g = f := by
        intro hh
        simp [dictGet, hh] at hnf
      have hrest : dictGet rest f = none := by
        simpa [dictGet, hg] using hnf
      rw [sync_locally_go]
      rcases h1 : transfer_to_storage s g .cloudSide .cloudLoad with ⟨s1, ev1⟩
      rcases h2 : reload_to_storage s1 g tg .cloudSide .cloudReload with ⟨s2, ev2⟩
      rcases h3 : sync_locally_go rest s2 with ⟨s3, ev3⟩
      have hT := transfer_other_frame s g f .cloudSide .cloudLoad hg
      rw [h1] at hT
      simp only at hT
      obtain ⟨ht1, ht2, ht3, htev⟩ := hT
      have hR := reload_other_frame s1 g f tg .cloudSide .cloudReload hg
      rw [h2] at hR
      simp only at hR
      obtain ⟨hr1, hr2, hr3, hrev⟩ := hR
      have hI := ih s2 hrest
      rw [h3] at hI
      simp only at hI
      obtain ⟨hi1, hi2, hi3, hiev⟩ := hI
      dsimp only
      rw [h2]
      dsimp only
      rw [h3]
      dsimp only
      refine ⟨by rw [hi1, hr1, ht1], by rw [hi2, hr2, ht2],
        by rw [hi3, hr3, ht3], ?_⟩
      intro e he
      rcases List.mem_append.mp he with he | he
      · rcases List.mem_append.mp he with he | he
        · rw [htev e he]
          intro hh
          exact hg (Option.some.inj hh)
        · rw [hrev e he]
          intro hh
          exact hg (Option.some.inj hh)
      · exact hiev e he

theorem update_data_cache_nodup (s : SyncState) (g : String) (side : Side)
    (h : (dictKeys s.cache).Nodup) :
    (dictKeys (update_data s g side).1.cache).Nodup := by
  cases side <;>
    simp only [update_data, setInfo, cacheSet] <;>
    split <;>
    simp <;>
    first
      | exact dictKeys_set_nodup _ _ _ (dictKeys_set_nodup _ _ _ h)
      | exact dictKeys_set_nodup _ _ _ h

theorem transfer_cache_nodup (s : SyncState) (g : String) (side : Side)
    (fn : TransferFn) (h : (dictKeys s.cache).Nodup) :
    (dictKeys (transfer_to_storage s g side fn).1.cache).Nodup := by
  unfold transfer_to_storage
  by_cases hc : dictContains s.cache g
  · simpa [hc] using h
  · simp only [hc, Bool.false_eq_true, if_false]
    rcases hT : applyTransfer fn s g with ⟨s1, ev, err⟩
    have hF := (applyTransfer_frame fn s g).1
    rw [hT] at hF
    simp only at hF
    cases err with
    | none =>
        dsimp only
        exact update_data_cache_nodup s1 g side (by rw [hF]; exact h)
    | some e0 =>
        dsimp only
        rw [hF]
        exact h

theorem reload_cache_nodup (s : SyncState) (g : String) (t : Int)
    (side : Side) (fn : TransferFn) (h : (dictKeys s.cache).Nodup) :
    (dictKeys (reload_to_storage s g t side fn).1.cache).Nodup := by
  unfold reload_to_storage
  cases hg : dictGet s.cache g with
  | none => simpa using h
  | some c =>
      by_cases hgt : t > c
      · simp only [hgt, if_true]
        rcases hT : applyTransfer fn s g with ⟨s1, ev, err⟩
        have hF := (applyTransfer_frame fn s g).1
        rw [hT] at hF
        simp only at hF
        cases err with
        | none =>
            dsimp only
            exact update_data_cache_nodup s1 g side (by rw [hF]; exact h)
        | some e0 =>
            dsimp only
            rw [hF]
            exact h
      · simpa [hgt] using h

theorem sync_locally_cache_nodup (entries : List (String × Int))
    (s : SyncState) (h : (dictKeys s.cache).Nodup) :
    (dictKeys (sync_locally_go entries s).1.cache).Nodup := by
  induction entries generalizing s with
  | nil => simpa [sync_locally_go] using h
  | cons p rest ih =>
      obtain ⟨g, tg⟩ := p
      rw [sync_locally_go]
      rcases h1 : transfer_to_storage s g .cloudSide .cloudLoad with ⟨s1, ev1⟩
      rcases h2 : reload_to_storage s1 g tg .cloudSide .cloudReload with ⟨s2, ev2⟩
      rcases h3 : sync_locally_go rest s2 with ⟨s3, ev3⟩
      have hT := transfer_cache_nodup s g .cloudSide .cloudLoad h
      rw [h1] at hT
      simp only at hT
      have hR := reload_cache_nodup s1 g tg .cloudSide .cloudReload hT
      rw [h2] at hR
      simp only at hR
      have hI := ih s2 hR
      rw [h3] at hI
      simp only at hI
      dsimp only
      rw [h2]
      dsimp only
      rw [h3]
      dsimp only
      exact hI

/-- Exactly one overwrite remote call and one cache write for a cached
file whose snapshot time exceeds the cached one, none otherwise, over
the whole local phase. -/
theorem sync_locally_counts (entries : List (String × Int)) (s : SyncState)
    (f : String) (t c : Int)
    (hnd : (entries.map Prod.fst).Nodup)
    (hmem : dictGet entries f = some t)
    (halias : s.cacheAlias = false)
    (hdir : s.localStore.dirExists = true)
    (hfolder : s.cloudStore.folderExists = true)
    (hfile : localHasFile s.localStore f = true)
    (hc : dictGet s.cache f = some c) :
    (t > c → countOverwriteRemote f (sync_locally_go entries s).2 = 1
           ∧ countCacheWrites f (sync_locally_go entries s).2 = 1)
    ∧ (¬ t > c → countOverwriteRemote f (sync_locally_go entries s).2 = 0
               ∧ countCacheWrites f (sync_locally_go entries s).2 = 0) := by
  induction entries generalizing s with
  | nil => simp [dictGet] at hmem
  | cons p rest ih =>
      obtain ⟨g, tg⟩ := p
      rw [List.map_cons, List.nodup_cons] at hnd
      rw [sync_locally_go]
      by_cases hg : g = f
      · subst hg
        simp only [dictGet, if_pos rfl] at hmem
        have htg : tg = t := Option.some.inj hmem
        subst htg
        have hrest : dictGet rest g = none :=
          dictGet_none_of_not_mem_keys rest g (by
            intro hmemk
            exact hnd.1 hmemk)
        rw [transfer_noop s g .cloudSide .cloudLoad (by
          rw [dictContains_eq_isSome, hc]; rfl)]
        dsimp only
        by_cases hgt : tg > c
        · rw [reload_fires s g tg c halias hdir hfolder hfile hc hgt]
          dsimp only
          rcases h3 : sync_locally_go rest
              { s with
                cloudStore :=
                  { s.cloudStore with
                      items := (s.cloudStore.items.filter (fun p => p.1 != g))
                        ++ [(g, { mtime := s.now + s.syncTime, isFile := true })] },
                cloudInfo := dictSet s.cloudInfo g
                  (get_time_correlation s.now s.syncTime),
                cache := dictSet s.cache g
                  (get_time_correlation s.now s.syncTime) } with ⟨s3, ev3⟩
          have hNF := sync_locally_no_f rest
              { s with
                cloudStore :=
                  { s.cloudStore with
                      items := (s.cloudStore.items.filter (fun p => p.1 != g))
                        ++ [(g, { mtime := s.now + s.syncTime, isFile := true })] },
                cloudInfo := dictSet s.cloudInfo g
                  (get_time_correlation s.now s.syncTime),
                cache := dictSet s.cache g
                  (get_time_correlation s.now s.syncTime) } g hrest
          rw [h3] at hNF
          simp only at hNF
          obtain ⟨_, _, _, hev3⟩ := hNF
          dsimp only
          constructor
          · intro _
            rw [countOverwriteRemote_append, countCacheWrites_append]
            rw [countOverwriteRemote_zero_of_not_named ev3 g hev3,
              countCacheWrites_zero_of_not_named ev3 g hev3]
            constructor <;> simp [countOverwriteRemote, countCacheWrites,
              List.countP_cons]
          · intro hng
            exact absurd hgt hng
        · rw [reload_stale s g tg c .cloudSide .cloudReload hc hgt]
          dsimp only
          rcases h3 : sync_locally_go rest s with ⟨s3, ev3⟩
          have hNF := sync_locally_no_f rest s g hrest
          rw [h3] at hNF
          simp only at hNF
          obtain ⟨_, _, _, hev3⟩ := hNF
          dsimp only
          constructor
          · intro hgt2
            exact absurd hgt2 hgt
          · intro _
            simp only [List.nil_append]
            rw [countOverwriteRemote_zero_of_not_named ev3 g hev3,
              countCacheWrites_zero_of_not_named ev3 g hev3]
            exact ⟨rfl, rfl⟩
      · have hmem2 : dictGet rest f = some t := by
          simpa [dictGet, hg] using hmem
        have hgne : g ≠ f := hg
        rcases h1 : transfer_to_storage s g .cloudSide .cloudLoad with ⟨s1, ev1⟩
        rcases h2 : reload_to_storage s1 g tg .cloudSide .cloudReload with ⟨s2, ev2⟩
        rcases h3 : sync_locally_go rest s2 with ⟨s3, ev3⟩
        have hT := transfer_other_frame s g f .cloudSide .cloudLoad hgne
        rw [h1] at hT
        simp only at hT
        obtain ⟨ht1, ht2, ht3, htev⟩ := hT
        have hTF := transfer_cloud_fields s g .cloudLoad (Or.inl rfl) halias
        rw [h1] at hTF
        simp only at hTF
        obtain ⟨htf1, htf2, htf3, htf4, htf5, htf6⟩ := hTF
        have hR := reload_other_frame s1 g f tg .cloudSide .cloudReload hgne
        rw [h2] at hR
        simp only at hR
        obtain ⟨hr1, hr2, hr3, hrev⟩ := hR
        have hRF := reload_cloud_fields s1 g tg .cloudReload (Or.inr rfl) htf3
        rw [h2] at hRF
        simp only at hRF
        obtain ⟨hrf1, hrf2, hrf3, hrf4, hrf5, hrf6⟩ := hRF
        have hI := ih s2 hnd.2 hmem2 hrf3
          (by rw [hrf1, htf1]; exact hdir)
          (by rw [hrf6, htf6]; exact hfolder)
          (by rw [hrf1, htf1]; exact hfile)
          (by rw [hr1, ht1]; exact hc)
        rw [h3] at hI
        simp only at hI
        obtain ⟨hI1, hI2⟩ := hI
        dsimp only
        rw [h2]
        dsimp only
        rw [h3]
        dsimp only
        constructor
        · intro hgt
          obtain ⟨ha, hb⟩ := hI1 hgt
          rw [countOverwriteRemote_append, countOverwriteRemote_append,
            countCacheWrites_append, countCacheWrites_append,
            countOverwriteRemote_zero_of_named ev1 g f hgne htev,
            countOverwriteRemote_zero_of_named ev2 g f hgne hrev,
            countCacheWrites_zero_of_named ev1 g f hgne htev,
            countCacheWrites_zero_of_named ev2 g f hgne hrev, ha, hb]
          exact ⟨rfl, rfl⟩
        · intro hng
          obtain ⟨ha, hb⟩ := hI2 hng
          rw [countOverwriteRemote_append, countOverwriteRemote_append,
            countCacheWrites_append, countCacheWrites_append,
            countOverwriteRemote_zero_of_named ev1 g f hgne htev,
            countOverwriteRemote_zero_of_named ev2 g f hgne hrev,
            countCacheWrites_zero_of_named ev1 g f hgne htev,
            countCacheWrites_zero_of_named ev2 g f hgne hrev, ha, hb]
          exact ⟨rfl, rfl⟩

theorem dictGet_none_of_contains_false (d : Info) (f : String)
    (h : dictContains d f = false) : dictGet d f = none := by
  cases hg : dictGet d f with
  | none => rfl
  | some v =>
      rw [dictContains_eq_isSome, hg] at h
      simp at h

theorem cloudLookup_filter_self (items : List (String × CloudMeta))
    (f : String) :
    cloudLookup (items.filter (fun p => p.1 != f)) f = none := by
  apply cloudLookup_none_of_not_mem
  intro hmem
  rw [List.mem_map] at hmem
  obtain ⟨p, hp, hfst⟩ := hmem
  rw [List.mem_filter] at hp
  have hpf := hp.2
  rw [hfst] at hpf
  simp at hpf

theorem visible_cloud_go_filter_frame (items : List (String × CloudMeta))
    (g f : String) (hne : f ≠ g) :
    ∀ (acc1 acc2 : Info), dictGet acc1 f = dictGet acc2 f →
    dictGet (visible_cloud_go (items.filter (fun p => p.1 != g)) acc1) f
      = dictGet (visible_cloud_go items acc2) f := by
  induction items with
  | nil =>
      intro acc1 acc2 h
      simpa [visible_cloud_go] using h
  | cons p rest ih =>
      obtain ⟨n, m⟩ := p
      intro acc1 acc2 h
      by_cases hng : n = g
      · have hfilter : ((n, m) :: rest).filter (fun p => p.1 != g)
            = rest.filter (fun p => p.1 != g) := by
          simp [List.filter_cons, hng]
        rw [hfilter]
        by_cases hpass : (m.isFile && !startsWithTilde n) = true
        · rw [show visible_cloud_go ((n, m) :: rest) acc2
              = visible_cloud_go rest (dictSet acc2 n m.mtime) from by
            simp [visible_cloud_go, hpass]]
          refine ih acc1 (dictSet acc2 n m.mtime) ?_
          rw [dictGet_set_ne acc2 n f m.mtime (by rw [hng]; exact hne)]
          exact h
        · rw [show visible_cloud_go ((n, m) :: rest) acc2
              = visible_cloud_go rest acc2 from by
            simp [visible_cloud_go, hpass]]
          exact ih acc1 acc2 h
      · have hfilter : ((n, m) :: rest).filter (fun p => p.1 != g)
            = (n, m) :: rest.filter (fun p => p.1 != g) := by
          simp [List.filter_cons, hng]
        rw [hfilter]
        by_cases hpass : (m.isFile && !startsWithTilde n) = true
        · rw [show visible_cloud_go ((n, m) :: rest.filter (fun p => p.1 != g)) acc1
              = visible_cloud_go (rest.filter (fun p => p.1 != g))
                  (dictSet acc1 n m.mtime) from by
            simp [visible_cloud_go, hpass]]
          rw [show visible_cloud_go ((n, m) :: rest) acc2
              = visible_cloud_go rest (dictSet acc2 n m.mtime) from by
            simp [visible_cloud_go, hpass]]
          refine ih _ _ ?_
          by_cases hnf : n = f
          · subst hnf
            rw [dictGet_set_self, dictGet_set_self]
          · rw [dictGet_set_ne acc1 n f m.mtime (fun hh => hnf hh.symm),
              dictGet_set_ne acc2 n f m.mtime (fun hh => hnf hh.symm)]
            exact h
        · rw [show visible_cloud_go ((n, m) :: rest.filter (fun p => p.1 != g)) acc1
              = visible_cloud_go (rest.filter (fun p => p.1 != g)) acc1 from by
            simp [visible_cloud_go, hpass]]
          rw [show visible_cloud_go ((n, m) :: rest) acc2
              = visible_cloud_go rest acc2 from by
            simp [visible_cloud_go, hpass]]
          exact ih acc1 acc2 h

theorem visible_filter_other (cs : CloudStore) (g f : String)
    (hne : f ≠ g) :
    dictGet (visible_cloud
        { cs with items := cs.items.filter (fun p => p.1 != g) }) f
      = dictGet (visible_cloud cs) f :=
  visible_cloud_go_filter_frame cs.items g f hne [] [] rfl

/-! Per name lemmas for the loop of _delete_in_storage. -/

/-- A cached name still present in the storage dict being checked is
skipped entirely on any kind of pass. -/
theorem process_name_skip (mgr which other : Side) (isFirst : Bool)
    (s : SyncState) (f : String)
    (h : dictContains (infoOf s which) f = true) :
    process_cache_name mgr which other isFirst s f = (s, []) := by
  unfold process_cache_name
  simp [h]

theorem delete_data_eq (s : SyncState) (f : String) (other : Side)
    (hcache : dictContains s.cache f = true)
    (halias : s.cacheAlias = false)
    (hlocal : dictContains s.localInfo f = false) :
    (delete_data s f other).1.cache = dictErase s.cache f
    ∧ (delete_data s f other).1.localInfo = s.localInfo
    ∧ (delete_data s f other).1.localStore = s.localStore
    ∧ (delete_data s f other).1.cloudStore = s.cloudStore
    ∧ (delete_data s f other).1.cacheAlias = false
    ∧ (delete_data s f other).1.now = s.now
    ∧ (delete_data s f other).1.syncTime = s.syncTime
    ∧ (delete_data s f other).2 = [.cacheErase f] := by
  cases other with
  | localSide =>
      unfold delete_data
      simp only [infoOf, hlocal, Bool.false_eq_true, if_false]
      rw [cacheEraseOp_present_no_alias s f halias hcache]
      exact ⟨rfl, rfl, rfl, rfl, halias, rfl, rfl, rfl⟩
  | cloudSide =>
      unfold delete_data
      by_cases hci : dictContains s.cloudInfo f
      · simp only [infoOf, hci, if_true, eraseInfo]
        rw [cacheEraseOp_present_no_alias
          { s with cloudInfo := dictErase s.cloudInfo f } f halias hcache]
        exact ⟨rfl, rfl, rfl, rfl, halias, rfl, rfl, rfl⟩
      · simp only [infoOf, hci, Bool.false_eq_true, if_false]
        rw [cacheEraseOp_present_no_alias s f halias hcache]
        exact ⟨rfl, rfl, rfl, rfl, halias, rfl, rfl, rfl⟩

/-- One loop iteration of _delete_in_storage on a non first pass, for a
cached name absent from the local snapshot: the remote copy is deleted
when visible (a no-op otherwise), the attempted re-upload does nothing
because the name is still cached, and the cache entry is dropped.  The
local store and the local snapshot are untouched. -/
theorem process_name_delete (other : Side) (s : SyncState) (f : String)
    (hnc : dictContains s.localInfo f = false)
    (hcache : dictContains s.cache f = true)
    (halias : s.cacheAlias = false)
    (hfolder : s.cloudStore.folderExists = true) :
    (process_cache_name .cloudSide .localSide other false s f).1.cache
        = dictErase s.cache f
    ∧ (process_cache_name .cloudSide .localSide other false s f).1.localInfo
        = s.localInfo
    ∧ (process_cache_name .cloudSide .localSide other false s f).1.localStore
        = s.localStore
    ∧ (process_cache_name .cloudSide .localSide other false s f).1.cacheAlias
        = false
    ∧ (process_cache_name
        .cloudSide .localSide other false s f).1.cloudStore.folderExists
        = true
    ∧ (process_cache_name .cloudSide .localSide other false s f).1.now = s.now
    ∧ (process_cache_name .cloudSide .localSide other false s f).1.syncTime
        = s.syncTime
    ∧ dictGet (visible_cloud
        (process_cache_name .cloudSide .localSide other false s f).1.cloudStore)
        f = none
    ∧ (∀ x, x ≠ f → dictGet (visible_cloud
        (process_cache_name .cloudSide .localSide other false s f).1.cloudStore)
        x = dictGet (visible_cloud s.cloudStore) x)
    ∧ ∀ e ∈ (process_cache_name .cloudSide .localSide other false s f).2,
        (∃ g2, e = Event.deleteCloudFile g2) ∨ ∃ g2, e = Event.cacheErase g2 := by
  unfold process_cache_name
  simp only [infoOf, hnc, managerDelete, Bool.not_false, Bool.not_true,
    Bool.false_eq_true, if_false, Bool.and_false, Bool.and_true, if_true]
  unfold cloud_delete
  simp only [hfolder, Bool.not_true, Bool.false_eq_true, if_false]
  by_cases hvis : dictContains (visible_cloud s.cloudStore) f
  · simp only [hvis, if_true]
    rw [transfer_noop
      { s with cloudStore :=
          { folderExists := true,
            items := s.cloudStore.items.filter (fun p => p.1 != f) } }
      f .localSide .cloudLoad hcache]
    dsimp only
    have hD := delete_data_eq
      { s with cloudStore :=
          { folderExists := true,
            items := s.cloudStore.items.filter (fun p => p.1 != f) } }
      f other hcache halias hnc
    rcases hd : delete_data
      { s with cloudStore :=
          { folderExists := true,
            items := s.cloudStore.items.filter (fun p => p.1 != f) } }
      f other with ⟨sD, evD⟩
    rw [hd] at hD
    simp only at hD
    obtain ⟨hd1, hd2, hd3, hd4, hd5, hd6, hd7, hd8⟩ := hD
    dsimp only
    simp only [List.nil_append, List.append_nil]
    refine ⟨hd1, hd2, hd3, hd5, ?_, hd6, hd7, ?_, ?_, ?_⟩
    · rw [hd4]
    · rw [hd4]
      exact visible_cloud_go_absent
        (s.cloudStore.items.filter (fun p => p.1 != f)) [] f
        (cloudLookup_filter_self s.cloudStore.items f)
    · intro x hx
      rw [hd4]
      exact visible_cloud_go_filter_frame s.cloudStore.items f x hx [] [] rfl
    · intro e he
      rw [hd8] at he
      rcases List.mem_append.mp he with he | he
      · rw [List.mem_singleton] at he
        exact Or.inl ⟨f, he⟩
      · rw [List.mem_singleton] at he
        exact Or.inr ⟨f, he⟩
  · simp only [hvis, Bool.false_eq_true, if_false]
    rw [transfer_noop s f .localSide .cloudLoad hcache]
    dsimp only
    have hD := delete_data_eq s f other hcache halias hnc
    rcases hd : delete_data s f other with ⟨sD, evD⟩
    rw [hd] at hD
    simp only at hD
    obtain ⟨hd1, hd2, hd3, hd4, hd5, hd6, hd7, hd8⟩ := hD
    dsimp only
    simp only [List.nil_append, List.append_nil]
    refine ⟨hd1, hd2, hd3, hd5, ?_, hd6, hd7, ?_, ?_, ?_⟩
    · rw [hd4]
      exact hfolder
    · rw [hd4]
      exact dictGet_none_of_contains_false _ f (Bool.not_eq_true _ ▸ eq_false_of_ne_true hvis)
    · intro x hx
      rw [hd4]
    · intro e he
      rw [hd8] at he
      rw [List.mem_singleton] at he
      exact Or.inr ⟨f, he⟩

/-- Characterization of the loop of _delete_in_storage on a non first
pass with the cloud manager and the local snapshot dict: cached names
absent from the local snapshot lose their cache entry and their visible
remote copy, everything else is untouched, and only remote deletions and
cache removals are emitted. -/
theorem process_names_delete_char (names : List String) (s : SyncState)
    (other : Side) (hnd : names.Nodup)
    (hsub : ∀ g ∈ names, dictContains s.cache g = true)
    (halias : s.cacheAlias = false)
    (hfolder : s.cloudStore.folderExists = true) :
    (∀ x, dictGet
        (process_cache_names .cloudSide .localSide other false names s).1.cache
        x = if x ∈ names ∧ dictContains s.localInfo x = false then none
            else dictGet s.cache x)
    ∧ (process_cache_names
        .cloudSide .localSide other false names s).1.localInfo = s.localInfo
    ∧ (process_cache_names
        .cloudSide .localSide other false names s).1.localStore = s.localStore
    ∧ (process_cache_names
        .cloudSide .localSide other false names s).1.cacheAlias = false
    ∧ (process_cache_names
        .cloudSide .localSide other false names s).1.cloudStore.folderExists
        = true
    ∧ (process_cache_names
        .cloudSide .localSide other false names s).1.now = s.now
    ∧ (process_cache_names
        .cloudSide .localSide other false names s).1.syncTime = s.syncTime
    ∧ (∀ x, dictGet (visible_cloud
        (process_cache_names
          .cloudSide .localSide other false names s).1.cloudStore) x
        = if x ∈ names ∧ dictContains s.localInfo x = false then none
          else dictGet (visible_cloud s.cloudStore) x)
    ∧ ∀ e ∈ (process_cache_names .cloudSide .localSide other false names s).2,
        (∃ g2, e = Event.deleteCloudFile g2) ∨ ∃ g2, e = Event.cacheErase g2 := by
  induction names generalizing s with
  | nil =>
      refine ⟨?_, rfl, rfl, halias, hfolder, rfl, rfl, ?_, ?_⟩
      · intro x
        simp [process_cache_names]
      · intro x
        simp [process_cache_names]
      · intro e he
        simp [process_cache_names] at he
  | cons g rest ih =>
      rw [List.nodup_cons] at hnd
      rw [process_cache_names]
      by_cases hloc : dictContains s.localInfo g = true
      · rw [process_name_skip .cloudSide .localSide other false s g (by
          simpa [infoOf] using hloc)]
        dsimp only
        rcases hr : process_cache_names .cloudSide .localSide other false rest s
          with ⟨sR, evR⟩
        have hIH := ih s hnd.2
          (fun x hx => hsub x (List.mem_cons_of_mem g hx)) halias hfolder
        rw [hr] at hIH
        simp only at hIH
        obtain ⟨hc1, hc2, hc3, hc4, hc5, hc6, hc7, hc8, hc9⟩ := hIH
        dsimp only
        refine ⟨?_, hc2, hc3, hc4, hc5, hc6, hc7, ?_, ?_⟩
        · intro x
          rw [hc1 x]
          by_cases hxg : x = g
          · subst hxg
            simp [hnd.1, hloc]
          · simp [List.mem_cons, hxg]
        · intro x
          rw [hc8 x]
          by_cases hxg : x = g
          · subst hxg
            simp [hnd.1, hloc]
          · simp [List.mem_cons, hxg]
        · intro e he
          simp only [List.nil_append] at he
          exact hc9 e he
      · have hloc2 : dictContains s.localInfo g = false :=
          eq_false_of_ne_true hloc
        have hcache := hsub g (List.mem_cons_self g rest)
        have hP := process_name_delete other s g hloc2 hcache halias hfolder
        rcases hp : process_cache_name .cloudSide .localSide other false s g
          with ⟨s1, ev1⟩
        rw [hp] at hP
        simp only at hP
        obtain ⟨hp1, hp2, hp3, hp4, hp5, hp6, hp7, hp8, hp9, hp10⟩ := hP
        dsimp only
        rcases hr : process_cache_names .cloudSide .localSide other false rest s1
          with ⟨sR, evR⟩
        have hsub2 : ∀ x ∈ rest, dictContains s1.cache x = true := by
          intro x hx
          have hxg : x ≠ g := fun hh => hnd.1 (hh ▸ hx)
          rw [dictContains_eq_isSome, hp1, dictGet_erase_ne s.cache g x hxg]
          exact hsub x (List.mem_cons_of_mem g hx)
        have hIH := ih s1 hnd.2 hsub2 hp4 hp5
        rw [hr] at hIH
        simp only at hIH
        obtain ⟨hc1, hc2, hc3, hc4, hc5, hc6, hc7, hc8, hc9⟩ := hIH
        dsimp only
        refine ⟨?_, ?_, ?_, hc4, hc5, ?_, ?_, ?_, ?_⟩
        · intro x
          rw [hc1 x, hp2]
          by_cases hxg : x = g
          · subst hxg
            simp [hnd.1, hloc2, hp1, dictGet_erase_self]
          · simp only [hp1, dictGet_erase_ne s.cache g x hxg]
            simp [List.mem_cons, hxg]
        · rw [hc2, hp2]
        · rw [hc3, hp3]
        · rw [hc6, hp6]
        · rw [hc7, hp7]
        · intro x
          rw [hc8 x, hp2]
          by_cases hxg : x = g
          · subst hxg
            simp [hnd.1, hloc2, hp8]
          · rw [hp9 x hxg]
            simp [List.mem_cons, hxg]
        · intro e he
          rcases List.mem_append.mp he with he | he
          · exact hp10 e he
          · exact hc9 e he

theorem delete_in_storage_not_first (s : SyncState) :
    delete_in_storage .cloudSide .localSide false s
      = process_cache_names .cloudSide .localSide
          (if eqCloudInfo s .localSide then .localSide else .cloudSide) false
          (dictKeys s.cache) s := by
  rw [delete_in_storage]
  simp only [Bool.and_false, Bool.false_eq_true, if_false]
  rcases hP : process_cache_names .cloudSide .localSide
      (if eqCloudInfo s .localSide then .localSide else .cloudSide) false
      (dictKeys s.cache) s with ⟨s2, ev2⟩
  simp

theorem local_get_info_ok (s : SyncState)
    (hdir : s.localStore.dirExists = true) :
    local_get_info s = (s, local_listing s.localStore.files s.syncTime) := by
  simp [local_get_info, hdir]

theorem synchronize_body_not_first (s : SyncState) (L : Info)
    (hdir : s.localStore.dirExists = true)
    (hlist : local_listing s.localStore.files s.syncTime = .ok L) :
    synchronize_body false s
      = ((delete_in_storage .cloudSide .localSide false
            (sync_locally_go L (afterListing s L)).1).1,
         (sync_locally_go L (afterListing s L)).2
           ++ (delete_in_storage .cloudSide .localSide false
                 (sync_locally_go L (afterListing s L)).1).2,
         none) := by
  rw [synchronize_body, local_get_info_ok s hdir, hlist]
  dsimp only
  simp only [afterListing]
  by_cases hemp : s.cache.isEmpty
  · simp only [hemp, if_true]
    dsimp only [sync_files_change_locally]
    rcases hp1 : sync_locally_go L
        { s with localInfo := L, cacheAlias := true, cache := L }
      with ⟨sA, evA⟩
    rcases hp2 : delete_in_storage .cloudSide .localSide false sA
      with ⟨sB, evB⟩
    rfl
  · simp only [hemp, Bool.false_eq_true, if_false]
    dsimp only [sync_files_change_locally]

theorem synchronize_data_not_first (n : Nat) (s : SyncState) (L : Info)
    (hdir : s.localStore.dirExists = true)
    (hlist : local_listing s.localStore.files s.syncTime = .ok L) :
    synchronize_data n false s
      = ((delete_in_storage .cloudSide .localSide false
            (sync_locally_go L (afterListing s L)).1).1,
         (sync_locally_go L (afterListing s L)).2
           ++ (delete_in_storage .cloudSide .localSide false
                 (sync_locally_go L (afterListing s L)).1).2) := by
  rw [synchronize_data, synchronize_body_not_first s L hdir hlist]

/-! Claim C5: modification propagation. -/

/-- C5: on a non first pass, a file present in both the local snapshot
and the cache triggers exactly one overwrite remote call and exactly one
cache update when its corrected local time strictly exceeds the cached
value, and none of either when it does not, provided the listing
succeeds, the remote folder exists and the file is present on disk. -/
theorem c5_modification_propagation (n : Nat) (s : SyncState) (L : Info)
    (f : String) (t c : Int)
    (hdir : s.localStore.dirExists = true)
    (hfolder : s.cloudStore.folderExists = true)
    (hlist : local_listing s.localStore.files s.syncTime = .ok L)
    (hfile : localHasFile s.localStore f = true)
    (hcnd : (dictKeys s.cache).Nodup)
    (hL : dictGet L f = some t)
    (hc : dictGet s.cache f = some c) :
    (t > c → countOverwriteRemote f (synchronize_data n false s).2 = 1
           ∧ countCacheWrites f (synchronize_data n false s).2 = 1)
    ∧ (t ≤ c → countOverwriteRemote f (synchronize_data n false s).2 = 0
             ∧ countCacheWrites f (synchronize_data n false s).2 = 0) := by
  rw [synchronize_data_not_first n s L hdir hlist]
  have hne : s.cache.isEmpty = false := by
    cases hcc : s.cache with
    | nil =>
        rw [hcc] at hc
        simp [dictGet] at hc
    | cons a l => rfl
  have hAL : afterListing s L
      = { s with localInfo := L, cacheAlias := false } := by
    rw [afterListing]
    simp [hne]
  rw [hAL]
  have hndL := local_listing_nodup s.localStore.files s.syncTime L hlist
  rcases hp1 : sync_locally_go L { s with localInfo := L, cacheAlias := false }
    with ⟨sA, evA⟩
  have hCnt := sync_locally_counts L
    { s with localInfo := L, cacheAlias := false } f t c hndL hL rfl hdir
    hfolder hfile hc
  rw [hp1] at hCnt
  simp only at hCnt
  have hFlds := sync_locally_fields L
    { s with localInfo := L, cacheAlias := false } rfl
  rw [hp1] at hFlds
  simp only at hFlds
  obtain ⟨hf1, hf2, hf3, hf4, hf5, hf6⟩ := hFlds
  have hCN := sync_locally_cache_nodup L
    { s with localInfo := L, cacheAlias := false } hcnd
  rw [hp1] at hCN
  simp only at hCN
  rw [delete_in_storage_not_first sA]
  rcases hp2 : process_cache_names .cloudSide .localSide
      (if eqCloudInfo sA .localSide then .localSide else .cloudSide) false
      (dictKeys sA.cache) sA with ⟨sB, evB⟩
  have hChar := process_names_delete_char (dictKeys sA.cache) sA
    (if eqCloudInfo sA .localSide then .localSide else .cloudSide)
    (List.Nodup.sublist (List.Sublist.refl _) hCN)
    (fun g hg => dictGet_isSome_of_mem_keys sA.cache g hg) hf3
    (by rw [hf6]; exact hfolder)
  rw [hp2] at hChar
  simp only at hChar
  have hShape := hChar.2.2.2.2.2.2.2.2
  have hZero := counts_zero_of_delete_shape evB f hShape
  dsimp only
  constructor
  · intro hgt
    obtain ⟨ha, hb⟩ := hCnt.1 hgt
    rw [countOverwriteRemote_append, countCacheWrites_append, ha, hb,
      hZero.1, hZero.2]
    exact ⟨rfl, rfl⟩
  · intro hle
    obtain ⟨ha, hb⟩ := hCnt.2 (not_lt.mpr hle)
    rw [countOverwriteRemote_append, countCacheWrites_append, ha, hb,
      hZero.1, hZero.2]
    exact ⟨rfl, rfl⟩

/-- C5 witness: in a concrete non first pass, file a (local time 50,
cached 10) gets exactly one overwrite remote and one cache write, and
file b (local time 10, cached 10) gets none. -/
theorem c5_modification_witness :
    (50 : Int) > 10
    ∧ countOverwriteRemote "a"
        (synchronize_data 1 false stateLocallyModified).2 = 1
    ∧ countCacheWrites "a"
        (synchronize_data 1 false stateLocallyModified).2 = 1
    ∧ (10 : Int) ≤ 10
    ∧ countOverwriteRemote "b"
        (synchronize_data 1 false stateLocallyModified).2 = 0
    ∧ countCacheWrites "b"
        (synchronize_data 1 false stateLocallyModified).2 = 0 :=
  have hA := c5_modification_propagation 1 stateLocallyModified
    [("a", 50), ("b", 10)] "a" 50 10 (by rfl) (by rfl) (by rfl) (by rfl)
    (by decide) (by decide) (by decide)
  have hB := c5_modification_propagation 1 stateLocallyModified
    [("a", 50), ("b", 10)] "b" 10 10 (by rfl) (by rfl) (by rfl) (by rfl)
    (by decide) (by decide) (by decide)
  ⟨by decide, (hA.1 (by decide)).1, (hA.1 (by decide)).2, by decide,
   (hB.2 (by decide)).1, (hB.2 (by decide)).2⟩

theorem mem_keys_of_dictGet (d : Info) (f : String) (v : Int)
    (h : dictGet d f = some v) : f ∈ dictKeys d := by
  induction d with
  | nil => simp [dictGet] at h
  | cons p rest ih =>
      obtain ⟨k, w⟩ := p
      rw [dictKeys_cons, List.mem_cons]
      by_cases hk : k = f
      · exact Or.inl hk.symm
      · simp only [dictGet, if_neg hk] at h
        exact Or.inr (ih h)

/-- A local phase in which every listed file is cached with a value at
least its snapshot time does nothing at all. -/
theorem sync_locally_quiet (entries : List (String × Int)) (s : SyncState)
    (hnd : (entries.map Prod.fst).Nodup)
    (hcov : ∀ g tg, dictGet entries g = some tg →
       ∃ cg, dictGet s.cache g = some cg ∧ tg ≤ cg) :
    sync_locally_go entries s = (s, []) := by
  induction entries with
  | nil => rfl
  | cons p rest ih =>
      obtain ⟨g, tg⟩ := p
      rw [List.map_cons, List.nodup_cons] at hnd
      obtain ⟨cg, hcg, hle⟩ := hcov g tg (by simp [dictGet])
      rw [sync_locally_go]
      rw [transfer_noop s g .cloudSide .cloudLoad
        (by rw [dictContains_eq_isSome, hcg]; rfl)]
      dsimp only
      rw [reload_stale s g tg cg .cloudSide .cloudReload hcg (not_lt.mpr hle)]
      dsimp only
      have hcov2 : ∀ g2 tg2, dictGet rest g2 = some tg2 →
          ∃ cg2, dictGet s.cache g2 = some cg2 ∧ tg2 ≤ cg2 := by
        intro g2 tg2 hg2
        refine hcov g2 tg2 ?_
        have hne : ¬ g = g2 := by
          intro hh
          subst hh
          exact hnd.1 (mem_keys_of_dictGet rest g tg2 hg2)
        simp [dictGet, hne, hg2]
      rw [ih hnd.2 hcov2]
      rfl

/-- A deletion reconciliation loop in which every name is still present
in the checked snapshot does nothing at all. -/
theorem process_names_quiet (names : List String) (s : SyncState)
    (mgr which other : Side) (isFirst : Bool)
    (h : ∀ g ∈ names, dictContains (infoOf s which) g = true) :
    process_cache_names mgr which other isFirst names s = (s, []) := by
  induction names with
  | nil => rfl
  | cons g rest ih =>
      rw [process_cache_names]
      rw [process_name_skip mgr which other isFirst s g
        (h g (List.mem_cons_self g rest))]
      dsimp only
      rw [ih (fun x hx => h x (List.mem_cons_of_mem g hx))]
      rfl

/-- A non first pass over a state whose cache already covers the local
listing and holds nothing else performs no work and keeps the cache. -/
theorem run_quiescent (n : Nat) (s : SyncState) (L : Info)
    (hdir : s.localStore.dirExists = true)
    (hlist : local_listing s.localStore.files s.syncTime = .ok L)
    (hcov : ∀ g tg, dictGet L g = some tg →
       ∃ cg, dictGet s.cache g = some cg ∧ tg ≤ cg)
    (hdom : ∀ g, dictContains s.cache g = true → dictContains L g = true) :
    (synchronize_data n false s).2 = []
    ∧ (synchronize_data n false s).1.cache = s.cache := by
  rw [synchronize_data_not_first n s L hdir hlist]
  by_cases hemp : s.cache.isEmpty
  · have hcnil : s.cache = [] := by
      cases hcc : s.cache with
      | nil => rfl
      | cons q qs =>
          rw [hcc] at hemp
          simp at hemp
    have hLnil : L = [] := by
      cases hL2 : L with
      | nil => rfl
      | cons p rest =>
          obtain ⟨g, tg⟩ := p
          obtain ⟨cg, hcg, _⟩ := hcov g tg (by rw [hL2]; simp [dictGet])
          rw [hcnil] at hcg
          simp [dictGet] at hcg
    subst hLnil
    have hAL : afterListing s []
        = { s with localInfo := [], cache := [], cacheAlias := true } := by
      rw [afterListing]
      simp [hemp]
    rw [hAL]
    rw [show sync_locally_go []
        { s with localInfo := [], cache := [], cacheAlias := true }
        = ({ s with localInfo := [], cache := [], cacheAlias := true }, [])
      from rfl]
    dsimp only
    rw [delete_in_storage_not_first]
    rw [process_names_quiet _ _ _ _ _ _ (by
      intro g hg
      simp [dictKeys] at hg)]
    dsimp only
    exact ⟨rfl, hcnil.symm⟩
  · have hAL : afterListing s L
        = { s with localInfo := L, cacheAlias := false } := by
      rw [afterListing]
      simp [eq_false_of_ne_true hemp]
    rw [hAL]
    rw [sync_locally_quiet L { s with localInfo := L, cacheAlias := false }
      (local_listing_nodup s.localStore.files s.syncTime L hlist) hcov]
    dsimp only
    rw [delete_in_storage_not_first]
    rw [process_names_quiet _ _ _ _ _ _ (by
      intro g hg
      simp only [infoOf]
      refine hdom g ?_
      exact dictGet_isSome_of_mem_keys _ g hg)]
    dsimp only
    exact ⟨rfl, rfl⟩

/-- After the local phase every listed file has a cache entry at least as
recent as its snapshot time, provided no snapshot time lies in the future
of the corrected wall clock. -/
theorem sync_locally_covers (entries : List (String × Int)) (s : SyncState)
    (hnd : (entries.map Prod.fst).Nodup)
    (halias : s.cacheAlias = false)
    (hdir : s.localStore.dirExists = true)
    (hfolder : s.cloudStore.folderExists = true)
    (hpres : ∀ g tg, dictGet entries g = some tg →
       localHasFile s.localStore g = true)
    (hfut : ∀ g tg, dictGet entries g = some tg →
       tg ≤ s.now + s.syncTime) :
    ∀ g tg, dictGet entries g = some tg →
      ∃ cg, dictGet (sync_locally_go entries s).1.cache g = some cg
        ∧ tg ≤ cg := by
  induction entries generalizing s with
  | nil =>
      intro g tg h
      simp [dictGet] at h
  | cons p rest ih =>
      obtain ⟨nm, tm⟩ := p
      rw [List.map_cons, List.nodup_cons] at hnd
      intro g tg hg
      rw [sync_locally_go]
      by_cases hgn : nm = g
      · subst hgn
        simp only [dictGet, if_pos rfl] at hg
        have htm : tm = tg := Option.some.inj hg
        subst htm
        have hrestnone : dictGet rest nm = none :=
          dictGet_none_of_not_mem_keys rest nm hnd.1
        have hT : tm ≤ s.now + s.syncTime :=
          hfut nm tm (by simp [dictGet])
        cases hcg : dictGet s.cache nm with
        | none =>
            rw [transfer_fires s nm halias hdir hfolder
              (hpres nm tm (by simp [dictGet]))
              (by rw [dictContains_eq_isSome, hcg]; rfl)]
            dsimp only
            rw [reload_stale _ nm tm (get_time_correlation s.now s.syncTime)
              .cloudSide .cloudReload (dictGet_set_self _ _ _)
              (not_lt.mpr hT)]
            dsimp only
            rcases h3 : sync_locally_go rest
                { s with
                  cloudStore :=
                    { s.cloudStore with
                        items := (s.cloudStore.items.filter (fun p => p.1 != nm))
                          ++ [(nm, { mtime := s.now + s.syncTime, isFile := true })] },
                  cloudInfo := dictSet s.cloudInfo nm
                    (get_time_correlation s.now s.syncTime),
                  cache := dictSet s.cache nm
                    (get_time_correlation s.now s.syncTime) } with ⟨s3, ev3⟩
            have hNF := sync_locally_no_f rest
                { s with
                  cloudStore :=
                    { s.cloudStore with
                        items := (s.cloudStore.items.filter (fun p => p.1 != nm))
                          ++ [(nm, { mtime := s.now + s.syncTime, isFile := true })] },
                  cloudInfo := dictSet s.cloudInfo nm
                    (get_time_correlation s.now s.syncTime),
                  cache := dictSet s.cache nm
                    (get_time_correlation s.now s.syncTime) } nm hrestnone
            rw [h3] at hNF
            simp only at hNF
            refine ⟨get_time_correlation s.now s.syncTime, ?_, hT⟩
            rw [hNF.1]
            exact dictGet_set_self _ _ _
        | some cg =>
            rw [transfer_noop s nm .cloudSide .cloudLoad
              (by rw [dictContains_eq_isSome, hcg]; rfl)]
            dsimp only
            by_cases hgt : tm > cg
            · rw [reload_fires s nm tm cg halias hdir hfolder
                (hpres nm tm (by simp [dictGet])) hcg hgt]
              dsimp only
              rcases h3 : sync_locally_go rest
                  { s with
                    cloudStore :=
                      { s.cloudStore with
                          items := (s.cloudStore.items.filter (fun p => p.1 != nm))
                            ++ [(nm, { mtime := s.now + s.syncTime, isFile := true })] },
                    cloudInfo := dictSet s.cloudInfo nm
                      (get_time_correlation s.now s.syncTime),
                    cache := dictSet s.cache nm
                      (get_time_correlation s.now s.syncTime) } with ⟨s3, ev3⟩
              have hNF := sync_locally_no_f rest
                  { s with
                    cloudStore :=
                      { s.cloudStore with
                          items := (s.cloudStore.items.filter (fun p => p.1 != nm))
                            ++ [(nm, { mtime := s.now + s.syncTime, isFile := true })] },
                    cloudInfo := dictSet s.cloudInfo nm
                      (get_time_correlation s.now s.syncTime),
                    cache := dictSet s.cache nm
                      (get_time_correlation s.now s.syncTime) } nm hrestnone
              rw [h3] at hNF
              simp only at hNF
              refine ⟨get_time_correlation s.now s.syncTime, ?_, hT⟩
              rw [hNF.1]
              exact dictGet_set_self _ _ _
            · rw [reload_stale s nm tm cg .cloudSide .cloudReload hcg hgt]
              dsimp only
              rcases h3 : sync_locally_go rest s with ⟨s3, ev3⟩
              have hNF := sync_locally_no_f rest s nm hrestnone
              rw [h3] at hNF
              simp only at hNF
              refine ⟨cg, ?_, not_lt.mp hgt⟩
              rw [hNF.1]
              exact hcg
      · have hg2 : dictGet rest g = some tg := by
          simpa [dictGet, hgn] using hg
        rcases h1 : transfer_to_storage s nm .cloudSide .cloudLoad with ⟨s1, ev1⟩
        rcases h2 : reload_to_storage s1 nm tm .cloudSide .cloudReload with ⟨s2, ev2⟩
        rcases h3 : sync_locally_go rest s2 with ⟨s3, ev3⟩
        have hTF := transfer_cloud_fields s nm .cloudLoad (Or.inl rfl) halias
        rw [h1] at hTF
        simp only at hTF
        obtain ⟨htf1, htf2, htf3, htf4, htf5, htf6⟩ := hTF
        have hRF := reload_cloud_fields s1 nm tm .cloudReload (Or.inr rfl) htf3
        rw [h2] at hRF
        simp only at hRF
        obtain ⟨hrf1, hrf2, hrf3, hrf4, hrf5, hrf6⟩ := hRF
        have hTg := transfer_other_frame s nm g .cloudSide .cloudLoad hgn
        rw [h1] at hTg
        simp only at hTg
        have hRg := reload_other_frame s1 nm g tm .cloudSide .cloudReload hgn
        rw [h2] at hRg
        simp only at hRg
        have hI := ih s2 hnd.2 hrf3
          (by rw [hrf1, htf1]; exact hdir)
          (by rw [hrf6, htf6]; exact hfolder)
          (by
            intro g2 tg2 hg2b
            rw [hrf1, htf1]
            exact hpres g2 tg2 (by
              have hne2 : ¬ nm = g2 := by
                intro hh
                subst hh
                exact hnd.1 (mem_keys_of_dictGet rest nm tg2 hg2b)
              simp [dictGet, hne2, hg2b]))
          (by
            intro g2 tg2 hg2b
            rw [hrf4, htf4, hrf5, htf5]
            exact hfut g2 tg2 (by
              have hne2 : ¬ nm = g2 := by
                intro hh
                subst hh
                exact hnd.1 (mem_keys_of_dictGet rest nm tg2 hg2b)
              simp [dictGet, hne2, hg2b]))
        obtain ⟨cg, hcg, hle⟩ := hI g tg hg2
        rw [h3] at hcg
        simp only at hcg
        dsimp only
        rw [h2]
        dsimp only
        rw [h3]
        dsimp only
        exact ⟨cg, hcg, hle⟩

theorem mem_of_dictGet (d : Info) (f : String) (v : Int)
    (h : dictGet d f = some v) : (f, v) ∈ d := by
  induction d with
  | nil => simp [dictGet] at h
  | cons p rest ih =>
      obtain ⟨k, w⟩ := p
      by_cases hk : k = f
      · subst hk
        simp only [dictGet, if_pos rfl] at h
        rw [List.mem_cons]
        exact Or.inl (by rw [Option.some.inj h])
      · simp only [dictGet, if_neg hk] at h
        exact List.mem_cons_of_mem _ (ih h)

/-- Postconditions of one successful non first pass: stores preserved on
the local side, the cache covers the listing and mentions nothing beyond
it. -/
theorem run_one_post (n : Nat) (s : SyncState) (L : Info)
    (hdir : s.localStore.dirExists = true)
    (hfolder : s.cloudStore.folderExists = true)
    (hlist : local_listing s.localStore.files s.syncTime = .ok L)
    (hfilesnd : (s.localStore.files.map Prod.fst).Nodup)
    (hfut : ∀ g tg, dictGet L g = some tg → tg ≤ s.now + s.syncTime)
    (hcnd : (dictKeys s.cache).Nodup) :
    (synchronize_data n false s).1.localStore = s.localStore
    ∧ (synchronize_data n false s).1.cloudStore.folderExists = true
    ∧ (synchronize_data n false s).1.syncTime = s.syncTime
    ∧ (synchronize_data n false s).1.now = s.now
    ∧ (∀ g tg, dictGet L g = some tg →
        ∃ cg, dictGet (synchronize_data n false s).1.cache g = some cg
          ∧ tg ≤ cg)
    ∧ (∀ g, dictContains (synchronize_data n false s).1.cache g = true →
        dictContains L g = true) := by
  rw [synchronize_data_not_first n s L hdir hlist]
  by_cases hemp : s.cache.isEmpty
  · have hAL : afterListing s L
        = { s with localInfo := L, cache := L, cacheAlias := true } := by
      rw [afterListing]
      simp [hemp]
    rw [hAL]
    rw [sync_locally_quiet L
      { s with localInfo := L, cache := L, cacheAlias := true }
      (local_listing_nodup s.localStore.files s.syncTime L hlist)
      (by
        intro g tg hg
        exact ⟨tg, hg, le_refl tg⟩)]
    dsimp only
    rw [delete_in_storage_not_first]
    rw [process_names_quiet _ _ _ _ _ _ (by
      intro g hg
      simp only [infoOf]
      exact dictGet_isSome_of_mem_keys L g hg)]
    dsimp only
    refine ⟨rfl, hfolder, rfl, rfl, ?_, ?_⟩
    · intro g tg hg
      exact ⟨tg, hg, le_refl tg⟩
    · intro g hgc
      exact hgc
  · have hAL : afterListing s L
        = { s with localInfo := L, cacheAlias := false } := by
      rw [afterListing]
      simp [eq_false_of_ne_true hemp]
    rw [hAL]
    rcases hp1 : sync_locally_go L { s with localInfo := L, cacheAlias := false }
      with ⟨sA, evA⟩
    have hFlds := sync_locally_fields L
      { s with localInfo := L, cacheAlias := false } rfl
    rw [hp1] at hFlds
    simp only at hFlds
    obtain ⟨hf1, hf2, hf3, hf4, hf5, hf6⟩ := hFlds
    have hCN := sync_locally_cache_nodup L
      { s with localInfo := L, cacheAlias := false } hcnd
    rw [hp1] at hCN
    simp only at hCN
    have hCov := sync_locally_covers L
      { s with localInfo := L, cacheAlias := false }
      (local_listing_nodup s.localStore.files s.syncTime L hlist) rfl hdir
      hfolder
      (by
        intro g tg hg
        obtain ⟨m, hm, _, _, _, _⟩ := local_listing_inv s.localStore.files
          s.syncTime L g tg hfilesnd hlist hg
        simp [localHasFile, hm])
      hfut
    rw [hp1] at hCov
    simp only at hCov
    rw [delete_in_storage_not_first]
    rcases hp2 : process_cache_names .cloudSide .localSide
        (if eqCloudInfo sA .localSide then .localSide else .cloudSide) false
        (dictKeys sA.cache) sA with ⟨sB, evB⟩
    have hChar := process_names_delete_char (dictKeys sA.cache) sA
      (if eqCloudInfo sA .localSide then .localSide else .cloudSide) hCN
      (fun g hg => dictGet_isSome_of_mem_keys sA.cache g hg) hf3
      (by rw [hf6]; exact hfolder)
    rw [hp2] at hChar
    simp only at hChar
    obtain ⟨hch1, hch2, hch3, hch4, hch5, hch6, hch7, hch8, hch9⟩ := hChar
    dsimp only
    refine ⟨by rw [hch3, hf1], hch5, by rw [hch7, hf5],
      by rw [hch6, hf4], ?_, ?_⟩
    · intro g tg hg
      obtain ⟨cg, hcg, hle⟩ := hCov g tg hg
      refine ⟨cg, ?_, hle⟩
      rw [hch1 g]
      have hcont : dictContains sA.localInfo g = true := by
        rw [hf2, dictContains_eq_isSome, hg]
        rfl
      rw [if_neg (by
        intro hcond
        rw [hcond.2] at hcont
        cases hcont)]
      exact hcg
    · intro g hgc
      rw [dictContains_eq_isSome] at hgc
      by_cases hcond : g ∈ dictKeys sA.cache
          ∧ dictContains sA.localInfo g = false
      · rw [hch1 g, if_pos hcond] at hgc
        simp at hgc
      · rw [hch1 g, if_neg hcond] at hgc
        by_cases hloc : dictContains sA.localInfo g = true
        · rw [hf2] at hloc
          exact hloc
        · have hmemk : g ∈ dictKeys sA.cache := by
            cases hgg : dictGet sA.cache g with
            | none =>
                rw [hgg] at hgc
                simp at hgc
            | some v => exact mem_keys_of_dictGet sA.cache g v hgg
          exact absurd ⟨hmemk, eq_false_of_ne_true hloc⟩ hcond

/-! Claim C6, amended part. -/

/-- C6 amended: provided the local listing succeeds with unique names,
the remote folder exists, the cache has unique keys, and no local file
carries a corrected modification time beyond the corrected wall clock,
running a non first pass twice with no external change between the runs
makes the second run perform no transfer, delete or cache event at all
and leaves the cache mapping unchanged. -/
theorem c6_amended_idempotence (n1 n2 : Nat) (s : SyncState) (L : Info)
    (hdir : s.localStore.dirExists = true)
    (hfolder : s.cloudStore.folderExists = true)
    (hlist : local_listing s.localStore.files s.syncTime = .ok L)
    (hfilesnd : (s.localStore.files.map Prod.fst).Nodup)
    (hfut : ∀ g tg, dictGet L g = some tg → tg ≤ s.now + s.syncTime)
    (hcnd : (dictKeys s.cache).Nodup) :
    (synchronize_data n2 false (synchronize_data n1 false s).1).2 = []
    ∧ (synchronize_data n2 false (synchronize_data n1 false s).1).1.cache
        = (synchronize_data n1 false s).1.cache := by
  obtain ⟨h1, h2, h3, h4, h5, h6⟩ :=
    run_one_post n1 s L hdir hfolder hlist hfilesnd hfut hcnd
  exact run_quiescent n2 (synchronize_data n1 false s).1 L
    (by rw [h1]; exact hdir)
    (by rw [h1, h3]; exact hlist)
    h5
    h6

/-- C6 amended, witness: a concrete pair of runs in which the first run
overwrites a remote file and the second run does nothing. -/
theorem c6_amended_witness :
    (synchronize_data 1 false
        (synchronize_data 1 false stateLocallyModified).1).2 = []
    ∧ (synchronize_data 1 false
        (synchronize_data 1 false stateLocallyModified).1).1.cache
        = (synchronize_data 1 false stateLocallyModified).1.cache :=
  c6_amended_idempotence 1 1 stateLocallyModified [("a", 50), ("b", 10)]
    (by rfl) (by rfl) (by rfl) (by decide)
    (by
      intro g tg hg
      have hmem := mem_of_dictGet [("a", (50 : Int)), ("b", 10)] g tg hg
      rcases List.mem_cons.mp hmem with h | h
      · have : tg = 50 := congrArg Prod.snd h
        subst this
        decide
      · rcases List.mem_cons.mp h with h2 | h2
        · have : tg = 10 := congrArg Prod.snd h2
          subst this
          decide
        · simp at h2)
    (by decide)

/-! Claim C1, amended part. -/

/-- C1 amended: on a non first pass with a successful listing, a cached
name absent from the local snapshot has its remote copy deleted and its
cache entry removed; the local store is untouched, and the pass neither
uploads the file again nor deletes any local copy of it. -/
theorem c1_amended_local_deletion (n : Nat) (s : SyncState) (L : Info)
    (f : String) (c : Int)
    (hdir : s.localStore.dirExists = true)
    (hfolder : s.cloudStore.folderExists = true)
    (hlist : local_listing s.localStore.files s.syncTime = .ok L)
    (hcnd : (dictKeys s.cache).Nodup)
    (hc : dictGet s.cache f = some c)
    (hnf : dictGet L f = none) :
    dictGet (synchronize_data n false s).1.cache f = none
    ∧ dictGet (visible_cloud (synchronize_data n false s).1.cloudStore) f
        = none
    ∧ (synchronize_data n false s).1.localStore = s.localStore
    ∧ Event.upload f ∉ (synchronize_data n false s).2
    ∧ Event.deleteLocalFile f ∉ (synchronize_data n false s).2 := by
  have hemp : s.cache.isEmpty = false := by
    cases hcc : s.cache with
    | nil =>
        rw [hcc] at hc
        simp [dictGet] at hc
    | cons p rest => rfl
  rw [synchronize_data_not_first n s L hdir hlist]
  have hAL : afterListing s L
      = { s with localInfo := L, cacheAlias := false } := by
    rw [afterListing]
    simp [hemp]
  rw [hAL]
  rcases hp1 : sync_locally_go L { s with localInfo := L, cacheAlias := false }
    with ⟨sA, evA⟩
  have hNoF := sync_locally_no_f L
    { s with localInfo := L, cacheAlias := false } f hnf
  rw [hp1] at hNoF
  simp only at hNoF
  obtain ⟨hnf1, hnf2, hnf3, hnfev⟩ := hNoF
  have hFlds := sync_locally_fields L
    { s with localInfo := L, cacheAlias := false } rfl
  rw [hp1] at hFlds
  simp only at hFlds
  obtain ⟨hf1, hf2, hf3, hf4, hf5, hf6⟩ := hFlds
  have hCN := sync_locally_cache_nodup L
    { s with localInfo := L, cacheAlias := false } hcnd
  rw [hp1] at hCN
  simp only at hCN
  rw [delete_in_storage_not_first]
  rcases hp2 : process_cache_names .cloudSide .localSide
      (if eqCloudInfo sA .localSide then .localSide else .cloudSide) false
      (dictKeys sA.cache) sA with ⟨sB, evB⟩
  have hChar := process_names_delete_char (dictKeys sA.cache) sA
    (if eqCloudInfo sA .localSide then .localSide else .cloudSide) hCN
    (fun g hg => dictGet_isSome_of_mem_keys sA.cache g hg) hf3
    (by rw [hf6]; exact hfolder)
  rw [hp2] at hChar
  simp only at hChar
  obtain ⟨hch1, hch2, hch3, hch4, hch5, hch6, hch7, hch8, hch9⟩ := hChar
  dsimp only
  have hcf : dictGet sA.cache f = some c := by
    rw [hnf1]
    exact hc
  have hmem : f ∈ dictKeys sA.cache := mem_keys_of_dictGet sA.cache f c hcf
  have hloc : dictContains sA.localInfo f = false := by
    rw [hf2, dictContains_eq_isSome, hnf]
    rfl
  refine ⟨?_, ?_, ?_, ?_, ?_⟩
  · rw [hch1 f, if_pos ⟨hmem, hloc⟩]
  · rw [hch8 f, if_pos ⟨hmem, hloc⟩]
  · rw [hch3, hf1]
  · intro hup
    rcases List.mem_append.mp hup with h | h
    · exact hnfev _ h rfl
    · rcases hch9 _ h with ⟨g2, hg2⟩ | ⟨g2, hg2⟩ <;> simp at hg2
  · intro hdel
    rcases List.mem_append.mp hdel with h | h
    · exact hnfev _ h rfl
    · rcases hch9 _ h with ⟨g2, hg2⟩ | ⟨g2, hg2⟩ <;> simp at hg2

/-- C1 amended, witness: a concrete non first pass in which the cached
file g was deleted locally; the remote copy and the cache entry go away
while the local store stays as it was. -/
theorem c1_amended_witness :
    dictGet (synchronize_data 1 false stateLocalDeleted).1.cache "g" = none
    ∧ dictGet (visible_cloud
        (synchronize_data 1 false stateLocalDeleted).1.cloudStore) "g" = none
    ∧ (synchronize_data 1 false stateLocalDeleted).1.localStore
        = stateLocalDeleted.localStore
    ∧ Event.upload "g" ∉ (synchronize_data 1 false stateLocalDeleted).2
    ∧ Event.deleteLocalFile "g" ∉ (synchronize_data 1 false stateLocalDeleted).2 :=
  c1_amended_local_deletion 1 stateLocalDeleted [] "g" 5
    (by rfl) (by rfl) (by rfl) (by decide) (by decide) (by rfl)

/-! Claim C4, amended part. -/

/-- C4 amended: in the sample scenario the first pass uploads both files
exactly once and the remote folder lists both afterwards, but the cache
ends the pass mapping each name to the corrected wall clock upload time
(here 1000 + 7 = 1007), not to the corrected modification times 107 and
207 the claim states. -/
theorem c4_amended_first_pass :
    (synchronize_data 2 true stateSampleScenario).2
      = [Event.upload "a.txt",
         Event.cacheWrite "a.txt"
           (get_time_correlation stateSampleScenario.now
             stateSampleScenario.syncTime),
         Event.upload "b.txt",
         Event.cacheWrite "b.txt"
           (get_time_correlation stateSampleScenario.now
             stateSampleScenario.syncTime)]
    ∧ (dictGet (visible_cloud
        (synchronize_data 2 true stateSampleScenario).1.cloudStore)
        "a.txt").isSome = true
    ∧ (dictGet (visible_cloud
        (synchronize_data 2 true stateSampleScenario).1.cloudStore)
        "b.txt").isSome = true
    ∧ (synchronize_data 2 true stateSampleScenario).1.cache
      = [("a.txt", get_time_correlation stateSampleScenario.now
            stateSampleScenario.syncTime),
         ("b.txt", get_time_correlation stateSampleScenario.now
            stateSampleScenario.syncTime)] := by
  refine ⟨by decide, by decide, by decide, by decide⟩
